import Mathlib

/-!
Verification development for the vuex-orm repository engine
(`src/Repo.ts` and its collaborators).

The embedding models JavaScript values, records, the flat per-entity
store, the query engine, and the `Repo` class from `src/Repo.ts`.
`Repo` methods are translated line by line from the source.  The
collaborators that are not part of the provided sources (Query, Model,
the attribute classes, the connection container) are modelled from the
specification; each such definition carries a doc comment saying so.
-/

namespace VO

/-! ## JavaScript-like values

Records hold JavaScript values: `null`, `undefined`, booleans, numbers,
strings, arrays and plain objects.  Numbers are modelled as integers
(no floating point arithmetic is performed by the engine).  The mutual
presentation (`Value` / `VList` / `VFields`) gives structural equality
(JavaScript `===` on primitives; for the structured cases the engine
only ever compares primitive field values).
-/

mutual

inductive Value where
  | null : Value
  | undef : Value
  | bool : Bool → Value
  | num : Int → Value
  | str : String → Value
  | arr : VList → Value
  | obj : VFields → Value
  deriving DecidableEq, Repr

inductive VList where
  | nil : VList
  | cons : Value → VList → VList
  deriving DecidableEq, Repr

inductive VFields where
  | nil : VFields
  | cons : String → Value → VFields → VFields
  deriving DecidableEq, Repr

end

instance : BEq Value := ⟨fun a b => decide (a = b)⟩

instance : LawfulBEq Value where
  eq_of_beq h := of_decide_eq_true h
  rfl := decide_eq_true rfl

/-- Record: an object's field map, i.e. field name → value. -/
abbrev Rec := VFields

/-- Look up a field of a record; `none` models JavaScript `undefined`
being returned for an absent property. -/
def VFields.lookup (k : String) : VFields → Option Value
  | .nil => none
  | .cons k' v rest => if k' = k then some v else VFields.lookup k rest

/-- Set a field of a record: replace the value if the field exists,
append otherwise (JavaScript property assignment on a plain object). -/
def VFields.set (k : String) (v : Value) : VFields → VFields
  | .nil => .cons k v .nil
  | .cons k' v' rest =>
    if k' = k then .cons k v rest else .cons k' v' (VFields.set k v rest)

def VFields.isEmpty : VFields → Bool
  | .nil => true
  | .cons _ _ _ => false

def VFields.keys : VFields → List String
  | .nil => []
  | .cons k _ rest => k :: VFields.keys rest

/-- View of a record as a list of name/value pairs, used to iterate
over its entries (`_.forEach` over an object's own keys). -/
def VFields.toList : VFields → List (String × Value)
  | .nil => []
  | .cons k v rest => (k, v) :: VFields.toList rest

def VFields.ofList : List (String × Value) → VFields
  | [] => .nil
  | (k, v) :: rest => .cons k v (VFields.ofList rest)

def VList.toList : VList → List Value
  | .nil => []
  | .cons v rest => v :: VList.toList rest

def VList.ofList : List Value → VList
  | [] => .nil
  | v :: rest => .cons v (VList.ofList rest)

def VList.isEmpty : VList → Bool
  | .nil => true
  | .cons _ _ => false

/-- Property read `v[k]` on an arbitrary JavaScript value: objects
expose their fields; every other value yields `undefined` here (the
engine never reads array index or string properties by field name). -/
def getProp (v : Value) (k : String) : Value :=
  match v with
  | .obj fs => (fs.lookup k).getD .undef
  | _ => Value.undef

/-- Property read `record[k]` on a record. -/
def recProp (r : Rec) (k : String) : Value :=
  (r.lookup k).getD Value.undef

/-- JavaScript truthiness: `null`, `undefined`, `false`, `0` and the
empty string are falsy; arrays and objects are always truthy. -/
def truthy : Value → Bool
  | .null => false
  | .undef => false
  | .bool b => b
  | .num n => n != 0
  | .str s => s ≠ ""
  | .arr _ => true
  | .obj _ => true

/-- Lodash `_.isEmpty`: `null`/`undefined` are empty, arrays and
objects are empty when they have no entries, and primitives (numbers,
booleans) are always considered empty; a string is empty when it has
no characters. -/
def isEmptyValue : Value → Bool
  | .null => true
  | .undef => true
  | .bool _ => true
  | .num _ => true
  | .str s => s = ""
  | .arr l => l.isEmpty
  | .obj fs => fs.isEmpty

/-- Stringification of a primary-key value used as a table key
(JavaScript object keys are strings). -/
def keyStr : Value → String
  | .null => "null"
  | .undef => "undefined"
  | .bool b => if b then "true" else "false"
  | .num n => toString n
  | .str s => s
  | .arr _ => ""
  | .obj _ => ""

/-! ## The flat store

One table per entity; a table maps the stringified primary-key value
to a flat record.  Association lists keep the insertion order, which
is the iteration order of JavaScript objects. -/

/-- Generic association-list lookup with string keys. -/
def alookup (k : String) : List (String × α) → Option α
  | [] => none
  | (k', v) :: rest => if k' = k then some v else alookup k rest

/-- Generic association-list update: replace in place or append. -/
def aset (k : String) (v : α) : List (String × α) → List (String × α)
  | [] => [(k, v)]
  | (k', v') :: rest =>
    if k' = k then (k, v) :: rest else (k', v') :: aset k v rest

/-- Table of one entity: stringified primary key → record. -/
abbrev Table := List (String × Rec)

/-- The store state: entity name → table. -/
abbrev State := List (String × Table)

def getTable (st : State) (entity : String) : Table :=
  (alookup entity st).getD []

def setTable (st : State) (entity : String) (t : Table) : State :=
  aset entity t st

/-! ## Query engine (spec-modelled)

`src/Query.ts` is not among the provided sources.  The definitions in
this section are modelled from the specification, §4.2 (store
mutations) and §4.3 (query engine): AND/OR predicate groups where a
predicate is a field/value equality, a field predicate, or a
whole-record predicate; inclusion is "(all AND predicates pass) OR
(any OR predicate passes)", all records passing when no predicates
exist; `first id` is a direct key lookup bypassing the filters, and
`first` without an id takes the first filtered record.  Only the parts
the repository exercises are modelled (no ordering or pagination state
is ever consulted by the claims under study). -/

/-- Query predicate (spec-modelled): one `where` clause. -/
inductive Where where
  | fieldEq (field : String) (value : Value)
  | fieldPred (field : String) (p : Value → Bool)
  | recPred (p : Rec → Bool)

def matchWhere (r : Rec) : Where → Bool
  | .fieldEq f v => recProp r f == v
  | .fieldPred f p => p (recProp r f)
  | .recPred p => p r

/-- Modelled from the spec: final inclusion in a query result is
"(all AND predicates pass) OR (any OR predicate passes)", with all
records passing when no predicates exist. -/
def matchQuery (wheres orWheres : List Where) (r : Rec) : Bool :=
  (wheres.all (matchWhere r)) || (orWheres.any (matchWhere r))

/-- Modelled from the spec: `Query#get` returns the records of the
entity's table that pass the filters, in table order. -/
def Query.get (st : State) (entity : String) (wheres orWheres : List Where) : List Rec :=
  ((getTable st entity).map Prod.snd).filter (matchQuery wheres orWheres)

/-- Modelled from the spec: `Query#first` — with an id, a direct key
lookup in the table bypassing filters; without an id, the first
filtered record.  Passing JavaScript `undefined` as the id is the same
as not passing one. -/
def Query.first (st : State) (entity : String) (wheres orWheres : List Where)
    (id : Option Value) : Option Rec :=
  match id with
  | some v =>
    if v = .undef then (Query.get st entity wheres orWheres).head?
    else alookup (keyStr v) (getTable st entity)
  | none => (Query.get st entity wheres orWheres).head?

/-- Modelled from the spec: `Query#create` replaces the entity's whole
table with the given records. -/
def Query.create (st : State) (entity : String) (records : Table) : State :=
  setTable st entity records

/-- Modelled from the spec: `Query#insert` upserts each given record
into the table by its key, fully replacing an existing record at the
same key. -/
def Query.insert (st : State) (entity : String) (records : Table) : State :=
  setTable st entity (records.foldl (fun t kr => aset kr.1 kr.2 t) (getTable st entity))

/-- Shallow merge of an update payload into a record: every field of
the payload overwrites the corresponding field of the record. -/
def mergeRec (r : Rec) (data : Value) : Rec :=
  match data with
  | .obj fs => fs.toList.foldl (fun acc kv => acc.set kv.1 kv.2) r
  | _ => r

/-- Update condition: a primary-key value or a record predicate
(spec §4.2; the field-closure form is not exercised by any claim). -/
inductive Cond where
  | byId (v : Value)
  | pred (p : Rec → Bool)

/-- Modelled from the spec: `Query#update` — by key, shallow-merge the
payload onto the record stored at that key (no effect if the key is
absent); by predicate, shallow-merge onto every matching record. -/
def Query.update (st : State) (entity : String) (data : Value) (c : Cond) : State :=
  match c with
  | .byId v =>
    setTable st entity
      ((getTable st entity).map
        (fun kr => if kr.1 = keyStr v then (kr.1, mergeRec kr.2 data) else kr))
  | .pred p =>
    setTable st entity
      ((getTable st entity).map
        (fun kr => if p kr.2 then (kr.1, mergeRec kr.2 data) else kr))

/-! ## Entity schemas

The attribute classes (`src/Attributes`) and the `Model` base class are
not among the provided sources; their data content is modelled from
the specification §3 and §6: a field descriptor is a plain attribute
with a default value or one of the four relationship kinds, each
carrying a foreign-key name (plus an other-key name for has-many-by)
and a reference to the related model, which in the source is either a
model class or the related entity's name as a string.  A model class
is referenced here by the entity name it carries. -/

/-- Reference to a related model (`attr.model` in the source): a model
class (carrying its static `entity` name) or a string entity name. -/
inductive ModelRef where
  | cls (entity : String)
  | byName (s : String)
  deriving DecidableEq, Repr

/-- Attribute descriptor, tagged exactly like `AttrTypes` in the
source: plain attribute, has-one, belongs-to, has-many, has-many-by. -/
inductive Attr where
  | attr (value : Value)
  | hasOne (model : ModelRef) (foreignKey : String)
  | belongsTo (model : ModelRef) (foreignKey : String)
  | hasMany (model : ModelRef) (foreignKey : String)
  | hasManyBy (model : ModelRef) (foreignKey : String) (otherKey : String)
  deriving DecidableEq, Repr

mutual

/-- Field descriptor: an attribute, or a nested sub-schema of further
field descriptors (`Attrs.isFields` in the source). -/
inductive FieldDef where
  | attribute (a : Attr)
  | sub (fs : Fields)
  deriving DecidableEq, Repr

/-- Schema of an entity: an ordered map of field name → descriptor. -/
inductive Fields where
  | nil : Fields
  | fcons (name : String) (fd : FieldDef) (rest : Fields)
  deriving DecidableEq, Repr

end

def Fields.lookup (k : String) : Fields → Option FieldDef
  | .nil => none
  | .fcons k' fd rest => if k' = k then some fd else Fields.lookup k rest

def Fields.toList : Fields → List (String × FieldDef)
  | .nil => []
  | .fcons k fd rest => (k, fd) :: Fields.toList rest

def Fields.keys : Fields → List String
  | .nil => []
  | .fcons k _ rest => k :: Fields.keys rest

/-- `Attrs.isAttribute`: whether a field descriptor is an attribute
(as opposed to a nested sub-schema). -/
def FieldDef.isAttribute : FieldDef → Bool
  | .attribute _ => true
  | .sub _ => false

/-- Truthiness of the property read `f[name]` on a field descriptor,
used by `Repo.loadRelations` to find a relation inside a sub-schema.
A sub-schema exposes its named fields (a found descriptor is an object
and hence truthy); an attribute descriptor exposes none of the
schema's field names. -/
def FieldDef.hasProp (f : FieldDef) (name : String) : Bool :=
  match f with
  | .sub fs => (fs.lookup name).isSome
  | .attribute _ => false

def FieldDef.subFields : FieldDef → Fields
  | .sub fs => fs
  | .attribute _ => .nil

/-- NormalizedData: entity name → (stringified key → record). -/
abbrev NormalizedData := List (String × Table)

/-- Modelled from the spec: the data a registered model contributes —
its entity name, primary-key field name (default `id`, overridable per
entity), field schema, and its `normalize` function (§4.1), which is
kept abstract since `Model.normalize` is not among the provided
sources; the claims only constrain its output. -/
structure ModelDef where
  entity : String
  primaryKey : String
  fields : Fields
  normalize : Value → NormalizedData

/-- Modelled from the spec: the connection container's model registry —
a lookup-by-name mapping of entity name to model (§6). -/
abbrev Registry := List (String × ModelDef)

/-! ## The repository

`Repo` from `src/Repo.ts`.  A repository instance carries the store
registry, the ambient global `name` binding (see `resolveRelation`),
the entity's name and model, the wrap flag, the relations to load and
the accumulated query filters.  The store state is passed to each
operation explicitly and returned by every operation that can reach a
mutation, so that frame properties can be stated. -/

/-- Constraint attached to a relation.  In the source a constraint is
an arbitrary closure `(query: Repo) => void | boolean`; the embedding
defunctionalizes it to the constraint shapes the engine itself builds
(`Repo.hasRelation` count comparisons) plus a `where`-adding and a
boolean-returning user constraint. -/
inductive CmpOp where
  | eq
  | gt
  | ge
  | lt
  | le
  deriving DecidableEq, Repr

def CmpOp.apply : CmpOp → Int → Int → Bool
  | .eq, a, b => a = b
  | .gt, a, b => a > b
  | .ge, a, b => a ≥ b
  | .lt, a, b => a < b
  | .le, a, b => a ≤ b

inductive RelCons where
  | countCmp (op : CmpOp) (n : Int)
  | whereEq (field : String) (value : Value)
  | retBool (b : Bool)
  deriving Repr

/-- Relation descriptor queued by `with`: a (possibly dotted) path and
an optional constraint. -/
structure Relation where
  name : String
  constraint : Option RelCons

/-- Repository instance state (the fields of the `Repo` class except
the store state, which is passed explicitly). -/
structure RepoCfg where
  registry : Registry
  globalName : String
  name : String
  entity : ModelDef
  wrap : Bool
  load : List Relation
  wheres : List Where
  orWheres : List Where

namespace Repo

/-- `new Repo(state, entity, wrap)`: the constructor looks the entity's
model up in the container (`this.entity = this.model(entity)`), which
fails fast for an undeclared entity. -/
def mk (registry : Registry) (globalName : String) (entity : String)
    (wrap : Bool) : Option RepoCfg :=
  (alookup entity registry).map fun md =>
    ⟨registry, globalName, entity, md, wrap, [], [], []⟩

/-- `Repo#where`: add an AND clause to the query. -/
def whereQ (q : RepoCfg) (w : Where) : RepoCfg :=
  { q with wheres := q.wheres ++ [w] }

/-- `Repo#with`: queue a relationship to be loaded with the result. -/
def withQ (q : RepoCfg) (name : String) (constraint : Option RelCons) : RepoCfg :=
  { q with load := q.load ++ [⟨name, constraint⟩] }

/-- `Repo#resolveRelation`: a non-string `attr.model` (a model class)
is returned as is; for a string model the source executes
`this.model(name)`, where `name` is not bound in the method or its
class scope and therefore denotes the ambient global `name` binding —
so the lookup uses the global string, not the string carried by the
attribute.  The result is the resolved model's entity name; `none`
models the container's fail-fast error for an unregistered name. -/
def resolveRelation (q : RepoCfg) (m : ModelRef) : Option String :=
  match m with
  | .cls e => some e
  | .byName _ => (alookup q.globalName q.registry).map (·.entity)

/-- `Repo#primaryKey`: the primary key of this repository's model. -/
def primaryKey (q : RepoCfg) : String :=
  q.entity.primaryKey

mutual

/-- `Repo#buildRecord`: walk the schema; keep fields present in the
input, recurse into sub-schemas (starting from `{}` when the input's
value for the field is falsy), and give missing fields their default:
the declared value for plain attributes, `null` for has-one and
belongs-to, `[]` for has-many and has-many-by. -/
def buildRecord (data : Value) (fields : Fields) (record : Rec) : Rec :=
  match fields with
  | .nil => record
  | .fcons name fd rest => buildRecord data rest (buildField data name fd record)

/-- One step of `Repo#buildRecord`: process a single schema field. -/
def buildField (data : Value) (name : String) (fd : FieldDef) (record : Rec) : Rec :=
  match fd with
  | .sub fs =>
    let newData := if truthy (getProp data name) then getProp data name else .obj .nil
    let prev : Rec := match record.lookup name with
      | some (.obj r) => r
      | _ => .nil
    record.set name (.obj (buildRecord newData fs prev))
  | .attribute a =>
    if getProp data name ≠ .undef then record.set name (getProp data name)
    else
      match a with
      | .attr v => record.set name v
      | .hasOne _ _ => record.set name .null
      | .belongsTo _ _ => record.set name .null
      | .hasMany _ _ => record.set name (.arr .nil)
      | .hasManyBy _ _ _ => record.set name (.arr .nil)

end

/-- `Repo#fill`: fill missing fields of a record with the defaults of
the named entity's model; fails fast if the entity is unregistered. -/
def fill (q : RepoCfg) (data : Rec) (entity : String) : Option Rec :=
  (alookup entity q.registry).map fun md => buildRecord (.obj data) md.fields .nil

/-- Write method routed by `Repo#save` (`'create'` or `'insert'`). -/
inductive SaveMethod where
  | create
  | insert
  deriving DecidableEq, Repr

def applyMethod (m : SaveMethod) (st : State) (entity : String) (records : Table) : State :=
  match m with
  | .create => Query.create st entity records
  | .insert => Query.insert st entity records

/-- `Repo#save`: normalize the input; when the method is `create` and
the normalized output is empty, still call the table-level create with
the empty map; otherwise, for each entity of the normalized output,
fill each record and route the slice to that entity's table. -/
def save (q : RepoCfg) (m : SaveMethod) (data : Value) (st : State) : Option State :=
  let nd := q.entity.normalize data
  if m = .create ∧ nd.isEmpty then
    some (Query.create st q.name [])
  else
    nd.foldl
      (fun ost et =>
        ost.bind fun s =>
          (fillTable q et.2 et.1).map fun filled => applyMethod m s et.1 filled)
      (some st)
where
  /-- `_.mapValues(data, record => this.fill(record, entity))`. -/
  fillTable (q : RepoCfg) (t : Table) (entity : String) : Option Table :=
    t.foldr
      (fun kr acc =>
        acc.bind fun rest => (fill q kr.2 entity).map fun r => (kr.1, r) :: rest)
      (some [])

/-- `Repo#create`: save, replacing existing data. -/
def create (q : RepoCfg) (data : Value) (st : State) : Option State :=
  save q .create data st

/-- `Repo#insert`: save without removing existing data. -/
def insert (q : RepoCfg) (data : Value) (st : State) : Option State :=
  save q .insert data st

/-- `Repo#update`: with an explicit condition, delegate; otherwise use
the primary-key value found in the payload as the target when that
value is truthy, and do nothing at all when it is not. -/
def update (q : RepoCfg) (data : Value) (condition : Option Cond) (st : State) : State :=
  match condition with
  | none =>
    if truthy (getProp data q.entity.primaryKey) then
      Query.update st q.name data (.byId (getProp data q.entity.primaryKey))
    else st
  | some c => Query.update st q.name data c

/-- Result element of `get`/`first`: a raw record, or a record wrapped
into a model instance of the named entity (the model constructor is an
external collaborator per spec §6; wrapping is modelled as tagging the
record with the entity it is wrapped for). -/
inductive Out where
  | plain (r : Rec)
  | model (entity : String) (r : Rec)
  deriving DecidableEq, Repr

/-- Record payload of a result element.  Nested relation queries always
run with wrapping disabled, so inside relation loading this only ever
meets `Out.plain`. -/
def Out.recOf : Out → Rec
  | .plain r => r
  | .model _ r => r

/-- Value stored into a record field for a loaded single relation:
`null` when the nested query found nothing. -/
def itemToValue : Option Out → Value
  | none => .null
  | some o => .obj o.recOf

/-- Fold a list threading the store state and propagating a thrown
error (`none`). -/
def stFoldl (f : β → α → State → Option β × State) :
    List α → β → State → Option β × State
  | [], b, st => (some b, st)
  | x :: xs, b, st =>
    match f b x st with
    | (none, st1) => (none, st1)
    | (some b', st1) => stFoldl f xs b' st1

/-- Map a list threading the store state and propagating a thrown
error (`none`). -/
def seqList (f : α → State → Option β × State) :
    List α → State → Option (List β) × State
  | [], st => (some [], st)
  | x :: xs, st =>
    match f x st with
    | (none, st1) => (none, st1)
    | (some y, st1) =>
      match seqList f xs st1 with
      | (none, st2) => (none, st2)
      | (some ys, st2) => (some (y :: ys), st2)

/-- Helper of `jsSplit`: split a character list at every occurrence of
the separator. -/
def splitCharList (sep : Char) : List Char → List Char → List String
  | [], acc => [String.mk acc.reverse]
  | c :: rest, acc =>
    if c = sep then String.mk acc.reverse :: splitCharList sep rest []
    else splitCharList sep rest (c :: acc)

/-- JavaScript `String#split` with a single-character separator, as in
`relation.name.split('.')`: splitting never yields an empty list (the
empty string splits to `[""]`). -/
def jsSplit (s : String) (sep : Char) : List String :=
  splitCharList sep s.data []

/-- Nested record passed down by the sub-schema branch of
`Repo#loadRelations` (`record[key]`, defaulting to a copy of the base
record when the nested value is not a record). -/
def subRecordAt (rec : Rec) (key : String) (base : Rec) : Rec :=
  match rec.lookup key with
  | some (.obj r) => r
  | _ => base

/-! The relation-loading functions recurse through the data: a dotted
path queues the rest of the path on the nested query, whose `get` or
`first` loads relations again on the related entity's records.  The
recursion is fueled: every function consumes one unit per call and
returns the error value `none` when the fuel runs out; the fuel needed
is bounded by the nesting depth of the queued relation paths, never by
the store contents. -/

mutual

/-- `Repo#loadRelations`: reduce the queued relations into the record,
loading each relation with the matching loader, or descending into
every sub-schema that exposes the relation's first path segment. -/
def loadRelations (fuel : Nat) (q : RepoCfg) (st : State) (base : Rec)
    (ld : List Relation) (record : Rec) (fields : Fields) : Option Rec × State :=
  match fuel with
  | 0 => (none, st)
  | n + 1 =>
    stFoldl (fun rec rel s => loadOne n q s base ld fields rec rel) ld record st
termination_by structural fuel

/-- One step of the `Repo#loadRelations` reduce: process a single
queued relation against the current fields. -/
def loadOne (fuel : Nat) (q : RepoCfg) (st : State) (base : Rec)
    (ld : List Relation) (fields : Fields) (record : Rec) (rel : Relation) :
    Option Rec × State :=
  match fuel with
  | 0 => (none, st)
  | n + 1 =>
    let name := (jsSplit rel.name '.').headD ""
    match fields.lookup name with
    | some (.attribute (.attr _)) => (some record, st)
    | some (.attribute (.hasOne m fk)) =>
      match loadHasOneRelation n q st base m fk rel with
      | (none, st1) => (none, st1)
      | (some v, st1) => (some (record.set name v), st1)
    | some (.attribute (.belongsTo m fk)) =>
      match loadBelongsToRelation n q st base m fk rel with
      | (none, st1) => (none, st1)
      | (some v, st1) => (some (record.set name v), st1)
    | some (.attribute (.hasMany m fk)) =>
      match loadHasManyRelation n q st base m fk rel with
      | (none, st1) => (none, st1)
      | (some v, st1) => (some (record.set name v), st1)
    | some (.attribute (.hasManyBy m fk ok)) =>
      match loadHasManyByRelation n q st base m fk ok rel with
      | (none, st1) => (none, st1)
      | (some v, st1) => (some (record.set name v), st1)
    | _ =>
      stFoldl
        (fun rec kv s =>
          if kv.2.hasProp name then
            match loadRelations n q s base ld (subRecordAt rec kv.1 base) kv.2.subFields with
            | (none, s1) => (none, s1)
            | (some r', s1) => (some (rec.set kv.1 (.obj r')), s1)
          else (some rec, s))
        fields.toList record st
termination_by structural fuel

/-- `Repo#loadHasOneRelation`: query the related entity where the
foreign key equals `record.id` — the field literally named `id`, not
the field declared as the primary key — and take the first match. -/
def loadHasOneRelation (fuel : Nat) (q : RepoCfg) (st : State) (base : Rec)
    (m : ModelRef) (fk : String) (rel : Relation) : Option Value × State :=
  match fuel with
  | 0 => (none, st)
  | n + 1 =>
    match Repo.resolveRelation q m with
    | none => (none, st)
    | some entity =>
      match Repo.mk q.registry q.globalName entity false with
      | none => (none, st)
      | some q0 =>
        let q1 := Repo.whereQ q0 (.fieldEq fk (recProp base "id"))
        match addConstraint n q1 rel st with
        | (none, st1) => (none, st1)
        | (some q2, st1) =>
          match firstR n q2 st1 none with
          | (none, st2) => (none, st2)
          | (some it, st2) => (some (itemToValue it), st2)
termination_by structural fuel

/-- `Repo#loadBelongsToRelation`: query the related entity by primary
key equal to `record[foreignKey]`. -/
def loadBelongsToRelation (fuel : Nat) (q : RepoCfg) (st : State) (base : Rec)
    (m : ModelRef) (fk : String) (rel : Relation) : Option Value × State :=
  match fuel with
  | 0 => (none, st)
  | n + 1 =>
    match Repo.resolveRelation q m with
    | none => (none, st)
    | some entity =>
      match Repo.mk q.registry q.globalName entity false with
      | none => (none, st)
      | some q0 =>
        match addConstraint n q0 rel st with
        | (none, st1) => (none, st1)
        | (some q2, st1) =>
          match firstR n q2 st1 (some (recProp base fk)) with
          | (none, st2) => (none, st2)
          | (some it, st2) => (some (itemToValue it), st2)
termination_by structural fuel

/-- `Repo#loadHasManyRelation`: query the related entity where the
foreign key equals `record.id` — again the field literally named
`id` — and take all matches. -/
def loadHasManyRelation (fuel : Nat) (q : RepoCfg) (st : State) (base : Rec)
    (m : ModelRef) (fk : String) (rel : Relation) : Option Value × State :=
  match fuel with
  | 0 => (none, st)
  | n + 1 =>
    match Repo.resolveRelation q m with
    | none => (none, st)
    | some entity =>
      match Repo.mk q.registry q.globalName entity false with
      | none => (none, st)
      | some q0 =>
        let q1 := Repo.whereQ q0 (.fieldEq fk (recProp base "id"))
        match addConstraint n q1 rel st with
        | (none, st1) => (none, st1)
        | (some q2, st1) =>
          match getR n q2 st1 with
          | (none, st2) => (none, st2)
          | (some outs, st2) =>
            (some (.arr (VList.ofList (outs.map fun o => Value.obj o.recOf))), st2)
termination_by structural fuel

/-- `Repo#loadHasManyByRelation`: for each key in the record's
foreign-key array, query the related entity where the other key equals
that key and take the first match, preserving the input key order; a
non-array foreign-key value is a thrown iteration error. -/
def loadHasManyByRelation (fuel : Nat) (q : RepoCfg) (st : State) (base : Rec)
    (m : ModelRef) (fk : String) (ok : String) (rel : Relation) : Option Value × State :=
  match fuel with
  | 0 => (none, st)
  | n + 1 =>
    match Repo.resolveRelation q m with
    | none => (none, st)
    | some entity =>
      match recProp base fk with
      | .arr ids =>
        match
          seqList
            (fun idv s =>
              match Repo.mk q.registry q.globalName entity false with
              | none => (none, s)
              | some q0 =>
                let q1 := Repo.whereQ q0 (.fieldEq ok idv)
                match addConstraint n q1 rel s with
                | (none, s1) => (none, s1)
                | (some q2, s1) =>
                  match firstR n q2 s1 none with
                  | (none, s2) => (none, s2)
                  | (some it, s2) => (some (itemToValue it), s2))
            ids.toList st
        with
        | (none, st1) => (none, st1)
        | (some vs, st1) => (some (.arr (VList.ofList vs)), st1)
      | _ => (none, st)
termination_by structural fuel

/-- `Repo#addConstraint`: a dotted relation path is shifted by one
segment and the rest of the path is queued on the nested query — with
no constraint attached; only for a single-segment path is the
relation's own constraint evaluated, a boolean result becoming a
whole-record `where` clause. -/
def addConstraint (fuel : Nat) (query : RepoCfg) (rel : Relation) (st : State) :
    Option RepoCfg × State :=
  match fuel with
  | 0 => (none, st)
  | n + 1 =>
    let segs := jsSplit rel.name '.'
    if segs.length ≠ 1 then
      (some (Repo.withQ query (String.intercalate "." segs.tail) none), st)
    else
      match rel.constraint with
      | none => (some query, st)
      | some c =>
        match applyConstraint n c query st with
        | (none, st1) => (none, st1)
        | (some (q2, ob), st1) =>
          match ob with
          | some b => (some (Repo.whereQ q2 (.recPred fun _ => b)), st1)
          | none => (some q2, st1)
termination_by structural fuel

/-- Evaluation of a relation constraint against the nested query: the
count comparisons built by `Repo#hasRelation` run the nested query's
`count`, a `whereEq` constraint adds a where clause returning nothing,
and a boolean-returning constraint reports its boolean. -/
def applyConstraint (fuel : Nat) (c : RelCons) (query : RepoCfg) (st : State) :
    Option (RepoCfg × Option Bool) × State :=
  match fuel with
  | 0 => (none, st)
  | n + 1 =>
    match c with
    | .countCmp op k =>
      match countR n query st with
      | ((none, _), st1) => (none, st1)
      | ((some cnt, q'), st1) => (some (q', some (op.apply (cnt : Int) k)), st1)
    | .whereEq f v => (some (Repo.whereQ query (.fieldEq f v), none), st)
    | .retBool b => (some (query, some b), st)
termination_by structural fuel

/-- `Repo#get`: run the query and collect the result. -/
def getR (fuel : Nat) (q : RepoCfg) (st : State) : Option (List Out) × State :=
  match fuel with
  | 0 => (none, st)
  | n + 1 => collect n q st (Query.get st q.name q.wheres q.orWheres)
termination_by structural fuel

/-- `Repo#first`: run the query for a single record. -/
def firstR (fuel : Nat) (q : RepoCfg) (st : State) (id : Option Value) :
    Option (Option Out) × State :=
  match fuel with
  | 0 => (none, st)
  | n + 1 => item n q st (Query.first st q.name q.wheres q.orWheres id)
termination_by structural fuel

/-- `Repo#count`: set `wrap` to `false` on the instance — it is never
restored — and return the length of `get()`.  The mutated instance is
returned alongside the count. -/
def countR (fuel : Nat) (q : RepoCfg) (st : State) :
    (Option Nat × RepoCfg) × State :=
  match fuel with
  | 0 => ((none, q), st)
  | n + 1 =>
    let q' := { q with wrap := false }
    match getR n q' st with
    | (none, st1) => ((none, q'), st1)
    | (some outs, st1) => ((some outs.length, q'), st1)
termination_by structural fuel

/-- `Repo#collect`: an empty query result collects to `[]`; otherwise
load the queued relations into each record and wrap each record into a
model instance unless wrapping is disabled. -/
def collect (fuel : Nat) (q : RepoCfg) (st : State) (collection : List Rec) :
    Option (List Out) × State :=
  match fuel with
  | 0 => (none, st)
  | n + 1 =>
    if collection.isEmpty then (some [], st)
    else
      match
        (if q.load.isEmpty then (some collection, st)
         else seqList (fun r s => loadRelations n q s r q.load r q.entity.fields)
           collection st)
      with
      | (none, st1) => (none, st1)
      | (some rs, st1) =>
        (some (if q.wrap then rs.map (fun r => Out.model q.entity.entity r)
               else rs.map Out.plain), st1)
termination_by structural fuel

/-- `Repo#item`: a missing record is `null`; otherwise load the queued
relations into the record and wrap it unless wrapping is disabled. -/
def item (fuel : Nat) (q : RepoCfg) (st : State) (queryItem : Option Rec) :
    Option (Option Out) × State :=
  match fuel with
  | 0 => (none, st)
  | n + 1 =>
    match queryItem with
    | none => (some none, st)
    | some r =>
      match
        (if q.load.isEmpty then (some r, st)
         else loadRelations n q st r q.load r q.entity.fields)
      with
      | (none, st1) => (none, st1)
      | (some r', st1) =>
        (some (some (if q.wrap then Out.model q.entity.entity r' else Out.plain r')), st1)
termination_by structural fuel

end

/-- `Repo#loadRelations` as called with its default arguments: load
this repository's queued relations, starting from a copy of the base
record, against this entity's schema. -/
def loadRelationsTop (fuel : Nat) (q : RepoCfg) (st : State) (base : Rec)
    (ld : List Relation) : Option Rec × State :=
  loadRelations fuel q st base ld base q.entity.fields

/-- Constraint argument of `Repo#has` / `Repo#hasNot`: nothing, an
exact count, a comparison-operator string with a count, or a
constraint closure. -/
inductive HasArg where
  | noCons
  | num (n : Int)
  | opCount (op : CmpOp) (n : Int)
  | cons (c : RelCons)
  deriving Repr

/-- The constraint-normalization chain at the top of
`Repo#hasRelation`: a number becomes an exact-count comparison, an
operator string with a count becomes that comparison, and anything
else is passed through unchanged. -/
def HasArg.toCons : HasArg → Option RelCons
  | .noCons => none
  | .num n => some (.countCmp .eq n)
  | .opCount op n => some (.countCmp op n)
  | .cons c => some c

/-- `Repo#hasRelation`: load just the named relation (with the
normalized constraint) into the record and test whether the loaded
field is non-empty in the lodash sense. -/
def hasRelation (fuel : Nat) (q : RepoCfg) (st : State) (record : Rec)
    (name : String) (arg : HasArg) : Option Bool × State :=
  match loadRelationsTop fuel q st record [⟨name, arg.toCons⟩] with
  | (none, st1) => (none, st1)
  | (some data, st1) => (some (!(isEmptyValue (recProp data name))), st1)

/-- `Repo#addHasConstraint`: scan every record of the entity with a
fresh unfiltered query, evaluate `hasRelation` for each, collect the
primary keys of the records whose result equals the wanted existence,
and add a primary-key-membership where clause to this query. -/
def addHasConstraint (fuel : Nat) (q : RepoCfg) (st : State) (name : String)
    (arg : HasArg) (existence : Bool) : Option RepoCfg × State :=
  let id := Repo.primaryKey q
  let items := Query.get st q.name [] []
  match
    stFoldl
      (fun ids itemRec s =>
        match hasRelation fuel q s itemRec name arg with
        | (none, s1) => (none, s1)
        | (some b, s1) =>
          (some (if b = existence then ids ++ [recProp itemRec id] else ids), s1))
      items ([] : List Value) st
  with
  | (none, st1) => (none, st1)
  | (some ids, st1) =>
    (some (Repo.whereQ q (.fieldPred id fun k => ids.contains k)), st1)

/-- `Repo#has`: where-constrain on relationship existence. -/
def hasQ (fuel : Nat) (q : RepoCfg) (st : State) (name : String) (arg : HasArg) :
    Option RepoCfg × State :=
  addHasConstraint fuel q st name arg true

/-- `Repo#hasNot`: where-constrain on relationship absence. -/
def hasNotQ (fuel : Nat) (q : RepoCfg) (st : State) (name : String) (arg : HasArg) :
    Option RepoCfg × State :=
  addHasConstraint fuel q st name arg false

/-- The call chain `repo.has(name, arg).get()`. -/
def runHasGet (fuel : Nat) (q : RepoCfg) (st : State) (name : String)
    (arg : HasArg) : Option (List Out) × State :=
  match hasQ fuel q st name arg with
  | (none, st1) => (none, st1)
  | (some q', st1) => getR fuel q' st1

/-- The call chain `repo.hasNot(name, arg).get()`. -/
def runHasNotGet (fuel : Nat) (q : RepoCfg) (st : State) (name : String)
    (arg : HasArg) : Option (List Out) × State :=
  match hasNotQ fuel q st name arg with
  | (none, st1) => (none, st1)
  | (some q', st1) => getR fuel q' st1

end Repo

/-! ## Basic lemmas about records, tables and the store -/

theorem VFields.lookup_set_self : (r : Rec) → ∀ (k : String) (v : Value),
    (r.set k v).lookup k = some v
  | .nil, k, v => by simp [VFields.set, VFields.lookup]
  | .cons k' v' rest, k, v => by
    by_cases h : k' = k <;>
      simp [VFields.set, VFields.lookup, h, VFields.lookup_set_self rest k v]

theorem VFields.lookup_set_ne : (r : Rec) → ∀ (k k' : String) (v : Value),
    k' ≠ k → (r.set k v).lookup k' = r.lookup k'
  | .nil, k, k', v, h => by simp [VFields.set, VFields.lookup, Ne.symm h]
  | .cons k0 v0 rest, k, k', v, h => by
    by_cases h0 : k0 = k
    · subst h0
      simp [VFields.set, VFields.lookup, Ne.symm h]
    · by_cases h1 : k0 = k' <;>
        simp [VFields.set, VFields.lookup, h, h0, h1, VFields.lookup_set_ne rest k k' v h]

theorem alookup_aset_self (k : String) (v : α) : (l : List (String × α)) →
    alookup k (aset k v l) = some v
  | [] => by simp [aset, alookup]
  | kv :: rest => by
    by_cases h : kv.1 = k <;> simp [aset, alookup, h, alookup_aset_self k v rest]

theorem alookup_aset_ne (k k' : String) (v : α) (h : k' ≠ k) : (l : List (String × α)) →
    alookup k' (aset k v l) = alookup k' l
  | [] => by simp [aset, alookup, Ne.symm h]
  | kv :: rest => by
    by_cases h0 : kv.1 = k
    · simp [aset, alookup, h0, Ne.symm h]
    · by_cases h1 : kv.1 = k' <;>
        simp [aset, alookup, h, h0, h1, alookup_aset_ne k k' v h rest]

theorem getTable_setTable_self (st : State) (e : String) (t : Table) :
    getTable (setTable st e t) e = t := by
  simp [getTable, setTable, alookup_aset_self]

/-- Key-by-key description of a table mapped by a point update. -/
theorem alookup_map_pointUpdate : (t : Table) → ∀ (K : String) (data : Value) (k : String),
    alookup k (t.map fun kr => if kr.1 = K then (kr.1, mergeRec kr.2 data) else kr) =
      (if k = K then (alookup k t).map (fun r => mergeRec r data) else alookup k t)
  | [], K, data, k => by simp [alookup]
  | (k0, r0) :: rest, K, data, k => by
    by_cases h1 : k0 = K
    · subst h1
      rw [List.map_cons, if_pos rfl]
      by_cases h0 : k0 = k
      · subst h0
        simp [alookup]
      · simp [alookup, Ne.symm h0, h0,
          alookup_map_pointUpdate rest k0 data k]
    · rw [List.map_cons, if_neg h1]
      by_cases h0 : k0 = k
      · subst h0
        simp [alookup, Ne.symm h1, h1]
      · simp [alookup, h0, alookup_map_pointUpdate rest K data k]

/-! ## State preservation of the read path -/

theorem stFoldl_snd (f : β → α → State → Option β × State)
    (h : ∀ b a s, (f b a s).2 = s) : ∀ (l : List α) (b : β) (st : State),
    (Repo.stFoldl f l b st).2 = st
  | [], _, _ => rfl
  | x :: xs, b, st => by
    have hx := h b x st
    rcases hfx : f b x st with ⟨ob, st1⟩
    rw [hfx] at hx
    cases ob with
    | none => simp [Repo.stFoldl, hfx, hx]
    | some b' =>
      simp only [Repo.stFoldl, hfx]
      rw [stFoldl_snd f h xs b' st1]
      exact hx

theorem seqList_snd (f : α → State → Option β × State)
    (h : ∀ a s, (f a s).2 = s) : ∀ (l : List α) (st : State),
    (Repo.seqList f l st).2 = st
  | [], _ => rfl
  | x :: xs, st => by
    have hx := h x st
    rcases hfx : f x st with ⟨ob, st1⟩
    rw [hfx] at hx
    cases ob with
    | none => simp [Repo.seqList, hfx, hx]
    | some b' =>
      have hrest := seqList_snd f h xs st1
      rcases hr : Repo.seqList f xs st1 with ⟨or, st2⟩
      rw [hr] at hrest
      simp only [Repo.seqList, hfx, hr]
      cases or <;> simp_all

/-- Every function of the relation-loading read path returns the store
state it was given: relation loading never mutates the store, at any
fuel. -/
theorem readPath_preserves_state : ∀ n : Nat,
    (∀ q st base ld record fields,
      (Repo.loadRelations n q st base ld record fields).2 = st) ∧
    (∀ q st base ld fields record rel,
      (Repo.loadOne n q st base ld fields record rel).2 = st) ∧
    (∀ q st base m fk rel, (Repo.loadHasOneRelation n q st base m fk rel).2 = st) ∧
    (∀ q st base m fk rel, (Repo.loadBelongsToRelation n q st base m fk rel).2 = st) ∧
    (∀ q st base m fk rel, (Repo.loadHasManyRelation n q st base m fk rel).2 = st) ∧
    (∀ q st base m fk ok rel,
      (Repo.loadHasManyByRelation n q st base m fk ok rel).2 = st) ∧
    (∀ query rel st, (Repo.addConstraint n query rel st).2 = st) ∧
    (∀ c query st, (Repo.applyConstraint n c query st).2 = st) ∧
    (∀ q st, (Repo.getR n q st).2 = st) ∧
    (∀ q st id, (Repo.firstR n q st id).2 = st) ∧
    (∀ q st, (Repo.countR n q st).2 = st) ∧
    (∀ q st coll, (Repo.collect n q st coll).2 = st) ∧
    (∀ q st qi, (Repo.item n q st qi).2 = st) := by
  intro n
  induction n with
  | zero =>
    refine ⟨?_, ?_, ?_, ?_, ?_, ?_, ?_, ?_, ?_, ?_, ?_, ?_, ?_⟩ <;> intros <;> rfl
  | succ n ih =>
    obtain ⟨ihLR, ihLO, ihH1, ihHB, ihHM, ihHMB, ihAC, ihAP, ihGR, ihFR, ihCR, ihCO, ihIT⟩ := ih
    have hsub : ∀ q st base ld (nm : String) (record : Rec) (fields : Fields),
        (Repo.stFoldl
          (fun rec kv s =>
            if kv.2.hasProp nm then
              match Repo.loadRelations n q s base ld (Repo.subRecordAt rec kv.1 base)
                  kv.2.subFields with
              | (none, s1) => (none, s1)
              | (some r', s1) => (some (rec.set kv.1 (.obj r')), s1)
            else (some rec, s))
          fields.toList record st).2 = st := by
      intro q st base ld nm record fields
      apply stFoldl_snd
      intro b a s
      by_cases hp : a.2.hasProp nm = true
      · simp only [hp, if_true]
        rcases heq : Repo.loadRelations n q s base ld (Repo.subRecordAt b a.1 base)
            a.2.subFields with ⟨or, s1⟩
        have h := ihLR q s base ld (Repo.subRecordAt b a.1 base) a.2.subFields
        rw [heq] at h
        cases or <;> simp_all
      · simp only [Bool.not_eq_true] at hp
        simp [hp]
    refine ⟨?_, ?_, ?_, ?_, ?_, ?_, ?_, ?_, ?_, ?_, ?_, ?_, ?_⟩
    · -- loadRelations
      intro q st base ld record fields
      exact stFoldl_snd _ (fun b a s => ihLO q s base ld fields b a) ld record st
    · -- loadOne
      intro q st base ld fields record rel
      simp only [Repo.loadOne]
      rcases hlk : Fields.lookup ((Repo.jsSplit rel.name '.').headD "") fields with _ | fd
      · exact hsub q st base ld ((Repo.jsSplit rel.name '.').headD "") record fields
      · rcases fd with a | fs2
        · cases a with
          | attr v => simp [hlk]
          | hasOne m fk =>
            rcases heq : Repo.loadHasOneRelation n q st base m fk rel with ⟨ov, st1⟩
            have h := ihH1 q st base m fk rel
            rw [heq] at h
            cases ov <;> simp_all
          | belongsTo m fk =>
            rcases heq : Repo.loadBelongsToRelation n q st base m fk rel with ⟨ov, st1⟩
            have h := ihHB q st base m fk rel
            rw [heq] at h
            cases ov <;> simp_all
          | hasMany m fk =>
            rcases heq : Repo.loadHasManyRelation n q st base m fk rel with ⟨ov, st1⟩
            have h := ihHM q st base m fk rel
            rw [heq] at h
            cases ov <;> simp_all
          | hasManyBy m fk ok =>
            rcases heq : Repo.loadHasManyByRelation n q st base m fk ok rel with ⟨ov, st1⟩
            have h := ihHMB q st base m fk ok rel
            rw [heq] at h
            cases ov <;> simp_all
        · exact hsub q st base ld ((Repo.jsSplit rel.name '.').headD "") record fields
    · -- loadHasOneRelation
      intro q st base m fk rel
      simp only [Repo.loadHasOneRelation]
      rcases hres : Repo.resolveRelation q m with _ | entity
      · simp [hres]
      · rcases hmk : Repo.mk q.registry q.globalName entity false with _ | q0
        · simp [hmk]
        · rcases heq : Repo.addConstraint n
              (Repo.whereQ q0 (.fieldEq fk (recProp base "id"))) rel st with ⟨oq, st1⟩
          have h := ihAC (Repo.whereQ q0 (.fieldEq fk (recProp base "id"))) rel st
          rw [heq] at h
          cases oq with
          | none => simp_all
          | some q2 =>
            rcases heq2 : Repo.firstR n q2 st1 none with ⟨oi, st2⟩
            have h2 := ihFR q2 st1 none
            rw [heq2] at h2
            cases oi <;> simp_all
    · -- loadBelongsToRelation
      intro q st base m fk rel
      simp only [Repo.loadBelongsToRelation]
      rcases hres : Repo.resolveRelation q m with _ | entity
      · simp [hres]
      · rcases hmk : Repo.mk q.registry q.globalName entity false with _ | q0
        · simp [hmk]
        · rcases heq : Repo.addConstraint n q0 rel st with ⟨oq, st1⟩
          have h := ihAC q0 rel st
          rw [heq] at h
          cases oq with
          | none => simp_all
          | some q2 =>
            rcases heq2 : Repo.firstR n q2 st1 (some (recProp base fk)) with ⟨oi, st2⟩
            have h2 := ihFR q2 st1 (some (recProp base fk))
            rw [heq2] at h2
            cases oi <;> simp_all
    · -- loadHasManyRelation
      intro q st base m fk rel
      simp only [Repo.loadHasManyRelation]
      rcases hres : Repo.resolveRelation q m with _ | entity
      · simp [hres]
      · rcases hmk : Repo.mk q.registry q.globalName entity false with _ | q0
        · simp [hmk]
        · rcases heq : Repo.addConstraint n
              (Repo.whereQ q0 (.fieldEq fk (recProp base "id"))) rel st with ⟨oq, st1⟩
          have h := ihAC (Repo.whereQ q0 (.fieldEq fk (recProp base "id"))) rel st
          rw [heq] at h
          cases oq with
          | none => simp_all
          | some q2 =>
            rcases heq2 : Repo.getR n q2 st1 with ⟨oo, st2⟩
            have h2 := ihGR q2 st1
            rw [heq2] at h2
            cases oo <;> simp_all
    · -- loadHasManyByRelation
      intro q st base m fk ok rel
      simp only [Repo.loadHasManyByRelation]
      rcases hres : Repo.resolveRelation q m with _ | entity
      · simp [hres]
      · rcases hfk : recProp base fk with _ | _ | b | i | s | ids | fsv
        case arr =>
          have hstep : ∀ (idv : Value) (s : State),
              ((fun idv s =>
                match Repo.mk q.registry q.globalName entity false with
                | none => (none, s)
                | some q0 =>
                  match Repo.addConstraint n (Repo.whereQ q0 (.fieldEq ok idv)) rel s with
                  | (none, s1) => (none, s1)
                  | (some q2, s1) =>
                    match Repo.firstR n q2 s1 none with
                    | (none, s2) => (none, s2)
                    | (some it, s2) =>
                      (some (Repo.itemToValue it), s2)) idv s
                : Option Value × State).2 = s := by
            intro idv s
            rcases hmk : Repo.mk q.registry q.globalName entity false with _ | q0
            · simp [hmk]
            · rcases heq : Repo.addConstraint n (Repo.whereQ q0 (.fieldEq ok idv)) rel s
                with ⟨oq, s1⟩
              have h := ihAC (Repo.whereQ q0 (.fieldEq ok idv)) rel s
              rw [heq] at h
              cases oq with
              | none => simp_all
              | some q2 =>
                rcases heq2 : Repo.firstR n q2 s1 none with ⟨oi, s2⟩
                have h2 := ihFR q2 s1 none
                rw [heq2] at h2
                cases oi <;> simp_all
          rcases heq : Repo.seqList
              (fun idv s =>
                match Repo.mk q.registry q.globalName entity false with
                | none => (none, s)
                | some q0 =>
                  match Repo.addConstraint n (Repo.whereQ q0 (.fieldEq ok idv)) rel s with
                  | (none, s1) => (none, s1)
                  | (some q2, s1) =>
                    match Repo.firstR n q2 s1 none with
                    | (none, s2) => (none, s2)
                    | (some it, s2) => (some (Repo.itemToValue it), s2))
              ids.toList st with ⟨ovs, st1⟩
          have h := seqList_snd _ hstep ids.toList st
          rw [heq] at h
          cases ovs <;> simp_all
        all_goals simp
    · -- addConstraint
      intro query rel st
      obtain ⟨nm, oc⟩ := rel
      simp only [Repo.addConstraint]
      by_cases hseg : (Repo.jsSplit nm '.').length ≠ 1
      · rw [if_pos hseg]
      · rw [if_neg hseg]
        cases oc with
        | none => rfl
        | some c =>
          rcases heq : Repo.applyConstraint n c query st with ⟨ocr, st1⟩
          have h := ihAP c query st
          rw [heq] at h
          cases ocr with
          | none => simp_all
          | some p =>
            rcases p with ⟨q2, ob⟩
            cases ob <;> simp_all
    · -- applyConstraint
      intro c query st
      cases c with
      | countCmp op k =>
        simp only [Repo.applyConstraint]
        rcases heq : Repo.countR n query st with ⟨⟨ocnt, qw⟩, st1⟩
        have h := ihCR query st
        rw [heq] at h
        cases ocnt <;> simp_all
      | whereEq f v => rfl
      | retBool b => rfl
    · -- getR
      intro q st
      exact ihCO q st (Query.get st q.name q.wheres q.orWheres)
    · -- firstR
      intro q st id
      exact ihIT q st (Query.first st q.name q.wheres q.orWheres id)
    · -- countR
      intro q st
      simp only [Repo.countR]
      rcases heq : Repo.getR n { q with wrap := false } st with ⟨og, st1⟩
      have h := ihGR { q with wrap := false } st
      rw [heq] at h
      cases og <;> simp_all
    · -- collect
      intro q st coll
      simp only [Repo.collect]
      by_cases hc : coll.isEmpty = true
      · simp [hc]
      · simp only [Bool.not_eq_true] at hc
        simp only [hc, Bool.false_eq_true, if_false]
        by_cases hl : q.load.isEmpty = true
        · simp [hl]
        · simp only [Bool.not_eq_true] at hl
          simp only [hl, Bool.false_eq_true, if_false]
          rcases heq : Repo.seqList
              (fun r s => Repo.loadRelations n q s r q.load r q.entity.fields) coll st
            with ⟨orr, st1⟩
          have h := seqList_snd _ (fun a s => ihLR q s a q.load a q.entity.fields) coll st
          rw [heq] at h
          cases orr <;> simpa using h
    · -- item
      intro q st qi
      simp only [Repo.item]
      cases qi with
      | none => rfl
      | some r =>
        by_cases hl : q.load.isEmpty = true
        · simp [hl]
        · simp only [Bool.not_eq_true] at hl
          simp only [hl, Bool.false_eq_true, if_false]
          rcases heq : Repo.loadRelations n q st r q.load r q.entity.fields with ⟨orr, st1⟩
          have h := ihLR q st r q.load r q.entity.fields
          rw [heq] at h
          cases orr <;> simpa using h

/-- Claim C9: relation loading is a pure read-time projection — at
every fuel, for every store state, record, relation descriptors and
schema, `loadRelations` (also as reached through `get` and `first`)
returns the store state unchanged. -/
theorem c9_relation_loading_never_mutates_store (fuel : Nat) (q : RepoCfg) (st : State)
    (base record : Rec) (ld : List Relation) (fields : Fields) (id : Option Value) :
    (Repo.loadRelations fuel q st base ld record fields).2 = st ∧
    (Repo.loadRelationsTop fuel q st base ld).2 = st ∧
    (Repo.getR fuel q st).2 = st ∧
    (Repo.firstR fuel q st id).2 = st := by
  obtain ⟨hLR, -, -, -, -, -, -, -, hGR, hFR, -, -, -⟩ := readPath_preserves_state fuel
  exact ⟨hLR q st base ld record fields, hLR q st base ld base q.entity.fields,
    hGR q st, hFR q st id⟩

/-! ## Wrap-independence of the relation loaders

The relation loaders read only the registry and the ambient global
name from the repository configuration, so the `wrap` flag of the
outer repository never influences the loaded data — only the final
wrapping step of `collect`/`item` looks at it.  These lemmas support
the `count` claim. -/

theorem loadHasOneRelation_wrapIrrel (n : Nat) (q : RepoCfg) (b : Bool) (st : State)
    (base : Rec) (m : ModelRef) (fk : String) (rel : Relation) :
    Repo.loadHasOneRelation n { q with wrap := b } st base m fk rel =
      Repo.loadHasOneRelation n q st base m fk rel := by
  cases n <;> rfl

theorem loadBelongsToRelation_wrapIrrel (n : Nat) (q : RepoCfg) (b : Bool) (st : State)
    (base : Rec) (m : ModelRef) (fk : String) (rel : Relation) :
    Repo.loadBelongsToRelation n { q with wrap := b } st base m fk rel =
      Repo.loadBelongsToRelation n q st base m fk rel := by
  cases n <;> rfl

theorem loadHasManyRelation_wrapIrrel (n : Nat) (q : RepoCfg) (b : Bool) (st : State)
    (base : Rec) (m : ModelRef) (fk : String) (rel : Relation) :
    Repo.loadHasManyRelation n { q with wrap := b } st base m fk rel =
      Repo.loadHasManyRelation n q st base m fk rel := by
  cases n <;> rfl

theorem loadHasManyByRelation_wrapIrrel (n : Nat) (q : RepoCfg) (b : Bool) (st : State)
    (base : Rec) (m : ModelRef) (fk ok : String) (rel : Relation) :
    Repo.loadHasManyByRelation n { q with wrap := b } st base m fk ok rel =
      Repo.loadHasManyByRelation n q st base m fk ok rel := by
  cases n <;> rfl

theorem loadRelations_wrapIrrel : ∀ n : Nat,
    (∀ (q : RepoCfg) (b : Bool) (st : State) (base : Rec) (ld : List Relation)
      (record : Rec) (fields : Fields),
      Repo.loadRelations n { q with wrap := b } st base ld record fields =
        Repo.loadRelations n q st base ld record fields) ∧
    (∀ (q : RepoCfg) (b : Bool) (st : State) (base : Rec) (ld : List Relation)
      (fields : Fields) (record : Rec) (rel : Relation),
      Repo.loadOne n { q with wrap := b } st base ld fields record rel =
        Repo.loadOne n q st base ld fields record rel) := by
  intro n
  induction n with
  | zero => exact ⟨fun _ _ _ _ _ _ _ => rfl, fun _ _ _ _ _ _ _ _ => rfl⟩
  | succ n ih =>
    obtain ⟨ihLR, ihLO⟩ := ih
    constructor
    · intro q b st base ld record fields
      show Repo.stFoldl
          (fun rec rel s => Repo.loadOne n { q with wrap := b } s base ld fields rec rel)
          ld record st =
        Repo.stFoldl (fun rec rel s => Repo.loadOne n q s base ld fields rec rel)
          ld record st
      rw [show (fun rec rel s =>
            Repo.loadOne n { q with wrap := b } s base ld fields rec rel) =
          (fun rec rel s => Repo.loadOne n q s base ld fields rec rel) from
        funext fun rec => funext fun rel => funext fun s => ihLO q b s base ld fields rec rel]
    · intro q b st base ld fields record rel
      simp only [Repo.loadOne]
      have hfun : (fun rec (kv : String × FieldDef) s =>
          if kv.2.hasProp ((Repo.jsSplit rel.name '.').headD "") then
            match Repo.loadRelations n { q with wrap := b } s base ld
                (Repo.subRecordAt rec kv.1 base) kv.2.subFields with
            | (none, s1) => (none, s1)
            | (some r', s1) => (some (rec.set kv.1 (.obj r')), s1)
          else (some rec, s)) =
          (fun rec (kv : String × FieldDef) s =>
          if kv.2.hasProp ((Repo.jsSplit rel.name '.').headD "") then
            match Repo.loadRelations n q s base ld
                (Repo.subRecordAt rec kv.1 base) kv.2.subFields with
            | (none, s1) => (none, s1)
            | (some r', s1) => (some (rec.set kv.1 (.obj r')), s1)
          else (some rec, s)) := by
        funext rec kv s
        rw [ihLR q b s base ld (Repo.subRecordAt rec kv.1 base) kv.2.subFields]
      rcases hlk : Fields.lookup ((Repo.jsSplit rel.name '.').headD "") fields with _ | fd
      · simp only [hfun]
      · rcases fd with a | fs2
        · cases a with
          | attr v => rfl
          | hasOne m fk => simp only [loadHasOneRelation_wrapIrrel]
          | belongsTo m fk => simp only [loadBelongsToRelation_wrapIrrel]
          | hasMany m fk => simp only [loadHasManyRelation_wrapIrrel]
          | hasManyBy m fk ok => simp only [loadHasManyByRelation_wrapIrrel]
        · simp only [hfun]

theorem collect_wrapIrrel (n : Nat) (q : RepoCfg) (b : Bool) (st : State)
    (recs : List Rec) :
    ((Repo.collect n { q with wrap := b } st recs).1).map List.length =
      ((Repo.collect n q st recs).1).map List.length ∧
    (Repo.collect n { q with wrap := b } st recs).2 = (Repo.collect n q st recs).2 := by
  cases n with
  | zero => exact ⟨rfl, rfl⟩
  | succ n =>
    have hfun : (fun r s =>
        Repo.loadRelations n { q with wrap := b } s r q.load r q.entity.fields) =
        (fun r s => Repo.loadRelations n q s r q.load r q.entity.fields) :=
      funext fun r => funext fun s =>
        (loadRelations_wrapIrrel n).1 q b s r q.load r q.entity.fields
    by_cases hc : recs.isEmpty = true
    · constructor <;> simp [Repo.collect, hc]
    · simp only [Bool.not_eq_true] at hc
      simp only [Repo.collect, hc, Bool.false_eq_true, if_false, hfun]
      rcases hs : (if q.load.isEmpty then (some recs, st)
          else Repo.seqList (fun r s => Repo.loadRelations n q s r q.load r q.entity.fields)
            recs st) with ⟨orr, st1⟩
      cases orr <;> constructor <;> simp [List.length_map, apply_ite List.length]

theorem getR_wrapIrrel (n : Nat) (q : RepoCfg) (b : Bool) (st : State) :
    ((Repo.getR n { q with wrap := b } st).1).map List.length =
      ((Repo.getR n q st).1).map List.length ∧
    (Repo.getR n { q with wrap := b } st).2 = (Repo.getR n q st).2 := by
  cases n with
  | zero => exact ⟨rfl, rfl⟩
  | succ n =>
    exact collect_wrapIrrel n q b st (Query.get st q.name q.wheres q.orWheres)

/-! ## Claims about `Repo#count` -/

/-- Repository with wrapping enabled and an arbitrary store, on which
`count` is observed. -/
def cfg7 : RepoCfg := ⟨[("posts", ⟨"posts", "id", .nil, fun _ => []⟩)], "", "posts",
  ⟨"posts", "id", .nil, fun _ => []⟩, true, [], [], []⟩

/-- Claim C7, counterexample: a repository created with wrapping
enabled has wrapping disabled after `count()` returns — the flag is
set off for good, not only for the duration of the call. -/
theorem c7_count_leaves_wrap_off_counterexample :
    cfg7.wrap = true ∧
    ((Repo.countR 3 cfg7 [("posts", [("1", .cons "id" (.num 1) .nil)])]).1.2).wrap = false := by
  decide

/-- Claim C7, amended: `count()` returns the same number as
`get().length` — the number is independent of the wrapping
configuration — but it does so by setting `wrap` to `false` on the
repository instance persistently: the configuration left behind is the
wrap-disabled one, whatever it was before. -/
theorem c7_count_is_get_length_but_mutates_wrap (q : RepoCfg) (st : State) (fuel : Nat) :
    (Repo.countR (fuel + 1) q st).1.1 = ((Repo.getR fuel q st).1).map List.length ∧
    (Repo.countR (fuel + 1) q st).1.2 = { q with wrap := false } := by
  have hg := (getR_wrapIrrel fuel q false st).1
  rcases hgf : Repo.getR fuel { q with wrap := false } st with ⟨og, st1⟩
  rw [hgf] at hg
  constructor
  · simp only [Repo.countR]
    rw [hgf]
    cases og with
    | none => exact hg
    | some outs => exact hg
  · simp only [Repo.countR]
    rw [hgf]
    cases og <;> rfl

/-! ## Claims about `Repo#update` -/

/-- Entity model used by the update scenarios: `posts` with the
default primary key `id` (the schema itself plays no role in
`Repo#update`). -/
def postsUpdModel : ModelDef := ⟨"posts", "id", .nil, fun _ => []⟩

def updCfg : RepoCfg := ⟨[("posts", postsUpdModel)], "", "posts", postsUpdModel, true, [], [], []⟩

def updRec : Rec := .cons "id" (.num 0) (.cons "x" (.num 1) .nil)

def updState : State := [("posts", [("0", updRec)])]

def updData : Value := .obj (.cons "id" (.num 0) (.cons "x" (.num 2) .nil))

/-- Claim C6, counterexample: the update payload `{id: 0, x: 2}`
contains the entity's primary key, and a record is stored under the
key `"0"`, yet `update` without a condition leaves the state
completely unchanged (the stored `x` remains `1`), because the
primary-key value `0` is falsy — contradicting the claim that a
payload containing the primary key updates the record with that
key. -/
theorem c6_update_pk_zero_counterexample :
    getProp updData updCfg.entity.primaryKey = .num 0 ∧
    Repo.update updCfg updData none updState = updState ∧
    (alookup "0" (getTable (Repo.update updCfg updData none updState) "posts")).map
      (fun r => recProp r "x") = some (.num 1) := by
  decide

/-- Claim C6, amended: with no explicit condition, if `data` contains
the primary key with a truthy value then the record stored under that
key is shallow-merged with `data` and every other record is untouched;
if the primary-key value is absent or falsy the call leaves the state
unchanged. -/
theorem c6_update_noCondition_behavior (q : RepoCfg) (data : Value) (st : State) :
    (truthy (getProp data q.entity.primaryKey) = true →
      ∀ k, alookup k (getTable (Repo.update q data none st) q.name) =
        (if k = keyStr (getProp data q.entity.primaryKey) then
          (alookup k (getTable st q.name)).map (fun r => mergeRec r data)
        else alookup k (getTable st q.name))) ∧
    (truthy (getProp data q.entity.primaryKey) = false →
      Repo.update q data none st = st) := by
  constructor
  · intro h k
    unfold Repo.update
    simp only [h, if_true]
    unfold Query.update
    rw [getTable_setTable_self]
    exact alookup_map_pointUpdate (getTable st q.name)
      (keyStr (getProp data q.entity.primaryKey)) data k
  · intro h
    unfold Repo.update
    simp [h]

def updData2 : Value := .obj (.cons "id" (.num 1) (.cons "x" (.num 2) .nil))

def updRec2 : Rec := .cons "id" (.num 1) (.cons "x" (.num 1) .nil)

def updState2 : State := [("posts", [("1", updRec2)])]

/-- Witness for the amended C6 theorem at a concrete truthy input. -/
theorem c6_update_noCondition_behavior_witness :
    truthy (getProp updData2 updCfg.entity.primaryKey) = true ∧
    alookup "1" (getTable (Repo.update updCfg updData2 none updState2) "posts") =
      (if "1" = keyStr (getProp updData2 updCfg.entity.primaryKey) then
        (alookup "1" (getTable updState2 "posts")).map (fun r => mergeRec r updData2)
      else alookup "1" (getTable updState2 "posts")) :=
  ⟨by decide, (c6_update_noCondition_behavior updCfg updData2 updState2).1 (by decide) "1"⟩

/-- Claim C10: in `Repo#update` without an explicit condition, the
fallback is gated on the truthiness of the primary-key value in the
payload, so a payload that contains the primary-key field with a falsy
value is treated as the silent no-op. -/
theorem c10_update_falsy_pk_noop (q : RepoCfg) (data : Value) (st : State)
    (_hpresent : getProp data q.entity.primaryKey ≠ .undef)
    (hfalsy : truthy (getProp data q.entity.primaryKey) = false) :
    Repo.update q data none st = st := by
  unfold Repo.update
  simp [hfalsy]

/-- Witness for C10 at the concrete payload `{id: 0, x: 2}`. -/
theorem c10_update_falsy_pk_noop_witness :
    (getProp updData updCfg.entity.primaryKey ≠ .undef ∧
      truthy (getProp updData updCfg.entity.primaryKey) = false) ∧
    Repo.update updCfg updData none updState = updState :=
  ⟨⟨by decide, by decide⟩,
    c10_update_falsy_pk_noop updCfg updData updState (by decide) (by decide)⟩

/-! ## Claim about `Repo#create` with empty normalized data -/

/-- Claim C2: when the input normalizes to an empty map, `create`
still invokes the table-level create with the empty map, so the
entity's table ends up empty. -/
theorem c2_create_empty_clears (q : RepoCfg) (data : Value) (st : State)
    (h : q.entity.normalize data = []) :
    Repo.create q data st = some (Query.create st q.name []) ∧
    getTable (Query.create st q.name []) q.name = [] := by
  refine ⟨?_, getTable_setTable_self st q.name []⟩
  unfold Repo.create Repo.save
  simp [h]

/-- Entity whose `normalize` returns the empty map on every input,
exercising the empty-create special case. -/
def emptyNormModel : ModelDef := ⟨"posts", "id", .nil, fun _ => []⟩

def emptyNormCfg : RepoCfg :=
  ⟨[("posts", emptyNormModel)], "", "posts", emptyNormModel, true, [], [], []⟩

/-- Witness for C2: the table previously had a record, and after
`create` with empty-normalizing input it is empty. -/
theorem c2_create_empty_clears_witness :
    emptyNormCfg.entity.normalize (.obj .nil) = [] ∧
    (getTable updState "posts" ≠ [] ∧
      Repo.create emptyNormCfg (.obj .nil) updState =
        some (Query.create updState "posts" []) ∧
      getTable (Query.create updState "posts" []) "posts" = []) :=
  ⟨rfl, by decide, c2_create_empty_clears emptyNormCfg (.obj .nil) updState rfl⟩

/-! ## Claim about the primary key used by has-one / has-many loading

Scenario: entity `users` declares `user_id` as its primary key and a
has-one plus a has-many relation to `accounts` over the foreign key
`user_id`; the matching account exists, but the loaders filter the
related table by `record.id`, which the user record does not have. -/

def usersFields : Fields :=
  .fcons "user_id" (.attribute (.attr .null))
    (.fcons "account" (.attribute (.hasOne (.cls "accounts") "user_id"))
      (.fcons "accounts" (.attribute (.hasMany (.cls "accounts") "user_id")) .nil))

def accountsFields : Fields :=
  .fcons "id" (.attribute (.attr .null)) (.fcons "user_id" (.attribute (.attr .null)) .nil)

def usersModel : ModelDef := ⟨"users", "user_id", usersFields, fun _ => []⟩

def accountsModel : ModelDef := ⟨"accounts", "id", accountsFields, fun _ => []⟩

def usersRegistry : Registry := [("users", usersModel), ("accounts", accountsModel)]

def userRec : Rec := .cons "user_id" (.num 1) .nil

def accountRec : Rec := .cons "id" (.num 1) (.cons "user_id" (.num 1) .nil)

def usersState : State := [("users", [("1", userRec)]), ("accounts", [("1", accountRec)])]

def usersCfg : RepoCfg :=
  ⟨usersRegistry, "", "users", usersModel, false,
    [⟨"account", none⟩, ⟨"accounts", none⟩], [], []⟩

/-- Claim C1: loading the has-one and the has-many relation of a user
whose entity declares `user_id` as its primary key yields `null` and
`[]` respectively, although an account whose foreign key equals the
user's primary-key value exists — the loaders filter the related table
by the field literally named `id` (which the record lacks), not by the
declared primary-key field. -/
theorem c1_hasOne_hasMany_use_id_field :
    usersModel.primaryKey = "user_id" ∧
    recProp userRec usersModel.primaryKey = .num 1 ∧
    (Repo.firstR 12 usersCfg usersState none).1 =
      some (some (.plain ((userRec.set "account" .null).set "accounts" (.arr .nil)))) ∧
    Query.get usersState "accounts"
      [.fieldEq "user_id" (recProp userRec usersModel.primaryKey)] [] = [accountRec] := by
  decide

/-! ## Claim about `Repo#resolveRelation` for string-named models -/

def resAccModel : ModelDef := ⟨"accounts", "id", .nil, fun _ => []⟩

def resUserModel : ModelDef := ⟨"users", "id", .nil, fun _ => []⟩

def resRegistry : Registry := [("accounts", resAccModel), ("users", resUserModel)]

/-- Repository whose ambient global `name` is the empty string (the
browser default for `window.name`). -/
def resCfgEmptyGlobal : RepoCfg := ⟨resRegistry, "", "users", resUserModel, true, [], [], []⟩

/-- Repository whose ambient global `name` happens to be `"users"`. -/
def resCfgUsersGlobal : RepoCfg :=
  ⟨resRegistry, "users", "users", resUserModel, true, [], [], []⟩

/-- Claim C4: although the related model `"accounts"` is registered, a
relation attribute declaring its model by that string never resolves
to it: `resolveRelation` reads the ambient global `name` binding
instead of the attribute's string, failing when the global name is
unregistered and resolving to the wrong model when the global name
happens to name one; a has-one load over such an attribute blows up
instead of querying the declared entity's table. -/
theorem c4_resolveRelation_uses_global_name :
    (alookup "accounts" resRegistry).map (fun m => m.entity) = some "accounts" ∧
    Repo.resolveRelation resCfgEmptyGlobal (.byName "accounts") = none ∧
    Repo.resolveRelation resCfgUsersGlobal (.byName "accounts") = some "users" ∧
    (Repo.loadHasOneRelation 10 resCfgEmptyGlobal
        [("accounts", [("1", .cons "id" (.num 1) (.cons "user_id" (.num 1) .nil))])]
        (.cons "id" (.num 1) .nil) (.byName "accounts") "user_id" ⟨"account", none⟩).1
      = none := by
  decide

/-! ## Claim about constraints on dotted relation paths

Scenario: `posts` have many `comments`, `comments` have many
`replies`; one post with one comment which has one reply, and the
relation `"comments.replies"` is loaded with a constraint that no
reply satisfies. -/

def postsFields3 : Fields :=
  .fcons "id" (.attribute (.attr .null))
    (.fcons "comments" (.attribute (.hasMany (.cls "comments") "post_id")) .nil)

def commentsFields3 : Fields :=
  .fcons "id" (.attribute (.attr .null))
    (.fcons "post_id" (.attribute (.attr .null))
      (.fcons "replies" (.attribute (.hasMany (.cls "replies") "comment_id")) .nil))

def repliesFields3 : Fields :=
  .fcons "id" (.attribute (.attr .null)) (.fcons "comment_id" (.attribute (.attr .null)) .nil)

def postsModel3 : ModelDef := ⟨"posts", "id", postsFields3, fun _ => []⟩

def commentsModel3 : ModelDef := ⟨"comments", "id", commentsFields3, fun _ => []⟩

def repliesModel3 : ModelDef := ⟨"replies", "id", repliesFields3, fun _ => []⟩

def registry3 : Registry :=
  [("posts", postsModel3), ("comments", commentsModel3), ("replies", repliesModel3)]

def postRec3 : Rec := .cons "id" (.num 1) .nil

def commentRec3 : Rec := .cons "id" (.num 10) (.cons "post_id" (.num 1) .nil)

def replyRec3 : Rec := .cons "id" (.num 5) (.cons "comment_id" (.num 10) .nil)

def state3 : State :=
  [("posts", [("1", postRec3)]), ("comments", [("10", commentRec3)]),
    ("replies", [("5", replyRec3)])]

/-- Posts repository loading `"comments.replies"` with a constraint
restricting the nested query to `id = 99`. -/
def cfg3 : RepoCfg :=
  ⟨registry3, "", "posts", postsModel3, false,
    [⟨"comments.replies", some (.whereEq "id" (.num 99))⟩], [], []⟩

/-- Claim C3, counterexample: the dotted path recursion itself works —
the post's comment is loaded with its reply nested inside — but the
reply that comes back fails the attached constraint's predicate
(`id = 99`), so the constraint was not applied to the nested query at
its depth: it was dropped during the path shift. -/
theorem c3_dotted_constraint_dropped_counterexample :
    (Repo.firstR 14 cfg3 state3 none).1 =
      some (some (.plain (postRec3.set "comments"
        (.arr (.cons (.obj (commentRec3.set "replies"
          (.arr (.cons (.obj replyRec3) .nil)))) .nil))))) ∧
    matchWhere replyRec3 (.fieldEq "id" (.num 99)) = false := by
  decide

/-- Claim C3, amended: a dotted relation path is shifted by one
segment and the remainder of the path is queued on the nested query
for the related entity — but with no constraint attached (the
relation's own constraint, whatever it was, is discarded); constraints
are only ever applied for single-segment paths. -/
theorem c3_addConstraint_shifts_path_drops_constraint (fuel : Nat) (query : RepoCfg)
    (rel : Relation) (st : State) (h : (Repo.jsSplit rel.name '.').length ≠ 1) :
    Repo.addConstraint (fuel + 1) query rel st =
      (some (Repo.withQ query
        (String.intercalate "." (Repo.jsSplit rel.name '.').tail) none), st) := by
  unfold Repo.addConstraint
  simp [h]

/-- Witness for the amended C3 theorem: the dotted path
`"comments.replies"` with an attached constraint is queued as
`"replies"` with no constraint. -/
theorem c3_addConstraint_shifts_path_drops_constraint_witness :
    (Repo.jsSplit "comments.replies" '.').length ≠ 1 ∧
    Repo.addConstraint 1 cfg3 ⟨"comments.replies", some (.whereEq "id" (.num 99))⟩ state3 =
      (some (Repo.withQ cfg3 "replies" none), state3) :=
  ⟨by decide, by
    have h := c3_addConstraint_shifts_path_drops_constraint 0 cfg3
      ⟨"comments.replies", some (.whereEq "id" (.num 99))⟩ state3 (by decide)
    simpa using h⟩

/-! ## Claim about default-filling (`Repo#buildRecord` / `Repo#fill`) -/

/-- Value that `Repo#buildRecord` leaves in a schema field: the input
value for a field present in the input, the recursively filled nested
record for a sub-schema, and the type-specific default for a missing
attribute field. -/
def builtFieldValue (data : Value) (name : String) (fd : FieldDef) : Value :=
  match fd with
  | .sub fs2 =>
    .obj (Repo.buildRecord
      (if truthy (getProp data name) then getProp data name else .obj .nil) fs2 .nil)
  | .attribute a =>
    if getProp data name ≠ .undef then getProp data name
    else
      match a with
      | .attr v => v
      | .hasOne _ _ => .null
      | .belongsTo _ _ => .null
      | .hasMany _ _ => .arr .nil
      | .hasManyBy _ _ _ => .arr .nil

theorem buildField_lookup_ne (data : Value) (n0 : String) (fd : FieldDef) (r : Rec)
    (name : String) (h : n0 ≠ name) :
    (Repo.buildField data n0 fd r).lookup name = r.lookup name := by
  have hs : name ≠ n0 := Ne.symm h
  rcases fd with a | fs2
  · simp only [Repo.buildField]
    by_cases hu : getProp data n0 ≠ Value.undef
    · rw [if_pos hu]
      exact VFields.lookup_set_ne r n0 name _ hs
    · rw [if_neg hu]
      cases a <;> exact VFields.lookup_set_ne r n0 name _ hs
  · simp only [Repo.buildField]
    exact VFields.lookup_set_ne r n0 name _ hs

theorem buildField_lookup_self (data : Value) (name : String) (fd : FieldDef) (r : Rec)
    (h : r.lookup name = none) :
    (Repo.buildField data name fd r).lookup name = some (builtFieldValue data name fd) := by
  rcases fd with a | fs2
  · simp only [Repo.buildField, builtFieldValue]
    by_cases hu : getProp data name ≠ Value.undef
    · rw [if_pos hu, if_pos hu]
      exact VFields.lookup_set_self r name _
    · rw [if_neg hu, if_neg hu]
      cases a <;> exact VFields.lookup_set_self r name _
  · simp only [Repo.buildField, builtFieldValue, h]
    exact VFields.lookup_set_self r name _

theorem buildRecord_lookup_notMem (data : Value) : (fs : Fields) → ∀ (r : Rec)
    (name : String), name ∉ fs.keys →
    (Repo.buildRecord data fs r).lookup name = r.lookup name
  | .nil, _, _, _ => rfl
  | .fcons n0 fd0 rest, r, name, h => by
    have h0 : n0 ≠ name := by
      intro e
      exact h (by simp [Fields.keys, e])
    have h1 : name ∉ rest.keys := by
      intro e
      exact h (by simp [Fields.keys, e])
    calc (Repo.buildRecord data (.fcons n0 fd0 rest) r).lookup name
        = (Repo.buildRecord data rest (Repo.buildField data n0 fd0 r)).lookup name := rfl
      _ = (Repo.buildField data n0 fd0 r).lookup name :=
          buildRecord_lookup_notMem data rest _ name h1
      _ = r.lookup name := buildField_lookup_ne data n0 fd0 r name h0

/-- Per-field characterization of `Repo#buildRecord` under a
duplicate-free schema, starting from a record not yet carrying the
field. -/
theorem buildRecord_lookup (data : Value) : (fs : Fields) → ∀ (r : Rec) (name : String)
    (fd : FieldDef), fs.keys.Nodup → fs.lookup name = some fd → r.lookup name = none →
    (Repo.buildRecord data fs r).lookup name = some (builtFieldValue data name fd)
  | .nil, _, name, fd, _, hlk, _ => by simp [Fields.lookup] at hlk
  | .fcons n0 fd0 rest, r, name, fd, hnd, hlk, hr => by
    have hnd' : n0 ∉ rest.keys ∧ rest.keys.Nodup := by
      have : (n0 :: rest.keys).Nodup := by simpa [Fields.keys] using hnd
      exact ⟨(List.nodup_cons.mp this).1, (List.nodup_cons.mp this).2⟩
    by_cases he : n0 = name
    · subst he
      have hfd : fd0 = fd := by simpa [Fields.lookup] using hlk
      subst hfd
      calc (Repo.buildRecord data (.fcons n0 fd0 rest) r).lookup n0
          = (Repo.buildRecord data rest (Repo.buildField data n0 fd0 r)).lookup n0 := rfl
        _ = (Repo.buildField data n0 fd0 r).lookup n0 :=
            buildRecord_lookup_notMem data rest _ n0 hnd'.1
        _ = some (builtFieldValue data n0 fd0) := buildField_lookup_self data n0 fd0 r hr
    · have hlk' : rest.lookup name = some fd := by simpa [Fields.lookup, he] using hlk
      have hr' : (Repo.buildField data n0 fd0 r).lookup name = none := by
        rw [buildField_lookup_ne data n0 fd0 r name he]
        exact hr
      exact buildRecord_lookup data rest (Repo.buildField data n0 fd0 r) name fd
        hnd'.2 hlk' hr'

/-- Claim C8: under a duplicate-free schema, default-filling produces
a record with every schema field present — a field present in the
input keeps its input value, a missing plain attribute gets its
declared default, a missing has-one or belongs-to field gets `null`, a
missing has-many or has-many-by field gets an empty array, and a
sub-schema field is filled recursively into a nested record. -/
theorem c8_buildRecord_default_filling (data : Value) (fs : Fields) (name : String)
    (fd : FieldDef) (hnd : fs.keys.Nodup) (hlk : fs.lookup name = some fd) :
    ((Repo.buildRecord data fs .nil).lookup name).isSome = true ∧
    (Repo.buildRecord data fs .nil).lookup name = some (builtFieldValue data name fd) ∧
    (∀ a, fd = .attribute a → getProp data name ≠ .undef →
      (Repo.buildRecord data fs .nil).lookup name = some (getProp data name)) ∧
    (∀ v, fd = .attribute (.attr v) → getProp data name = .undef →
      (Repo.buildRecord data fs .nil).lookup name = some v) ∧
    (∀ m fk, (fd = .attribute (.hasOne m fk) ∨ fd = .attribute (.belongsTo m fk)) →
      getProp data name = .undef →
      (Repo.buildRecord data fs .nil).lookup name = some .null) ∧
    (∀ m fk, fd = .attribute (.hasMany m fk) → getProp data name = .undef →
      (Repo.buildRecord data fs .nil).lookup name = some (.arr .nil)) ∧
    (∀ m fk ok, fd = .attribute (.hasManyBy m fk ok) → getProp data name = .undef →
      (Repo.buildRecord data fs .nil).lookup name = some (.arr .nil)) ∧
    (∀ fs2, fd = .sub fs2 →
      (Repo.buildRecord data fs .nil).lookup name =
        some (.obj (Repo.buildRecord
          (if truthy (getProp data name) then getProp data name else .obj .nil) fs2 .nil))) := by
  have hmain := buildRecord_lookup data fs .nil name fd hnd hlk rfl
  refine ⟨by rw [hmain]; rfl, hmain, ?_, ?_, ?_, ?_, ?_, ?_⟩
  · intro a ha hu
    subst ha
    rw [hmain]
    simp [builtFieldValue, hu]
  · intro v hv hu
    subst hv
    rw [hmain]
    simp [builtFieldValue, hu]
  · intro m fk hor hu
    rcases hor with h1 | h1 <;> subst h1 <;> rw [hmain] <;> simp [builtFieldValue, hu]
  · intro m fk h1 hu
    subst h1
    rw [hmain]
    simp [builtFieldValue, hu]
  · intro m fk ok h1 hu
    subst h1
    rw [hmain]
    simp [builtFieldValue, hu]
  · intro fs2 h1
    subst h1
    rw [hmain]
    simp [builtFieldValue]

/-- Schema of the C8 witness: a plain attribute with default `7`, a
has-one, a has-many and a sub-schema field. -/
def fillFields : Fields :=
  .fcons "a" (.attribute (.attr (.num 7)))
    (.fcons "b" (.attribute (.hasOne (.cls "x") "fk"))
      (.fcons "c" (.attribute (.hasMany (.cls "x") "fk"))
        (.fcons "s" (.sub (.fcons "x" (.attribute (.attr (.num 1))) .nil)) .nil)))

def fillData : Value := .obj (.cons "a" (.num 5) .nil)

/-- Witness for C8 at a concrete schema and input: the missing has-one
field is filled with `null`. -/
theorem c8_buildRecord_default_filling_witness :
    (fillFields.keys.Nodup ∧
      fillFields.lookup "b" = some (.attribute (.hasOne (.cls "x") "fk"))) ∧
    (Repo.buildRecord fillData fillFields .nil).lookup "b" = some .null :=
  ⟨⟨by decide, by decide⟩,
    (c8_buildRecord_default_filling fillData fillFields "b"
        (.attribute (.hasOne (.cls "x") "fk")) (by decide) (by decide)).2.2.2.2.1
      (.cls "x") "fk" (Or.inl rfl) (by decide)⟩


/-! ## Claim about `has` / `hasNot` (relationship-existence filtering) -/

theorem collect_noLoad (n : Nat) (q : RepoCfg) (st : State) (recs : List Rec)
    (h : q.load = []) :
    Repo.collect (n + 1) q st recs =
      (some (if q.wrap then recs.map (fun r => Repo.Out.model q.entity.entity r)
        else recs.map Repo.Out.plain), st) := by
  cases recs with
  | nil => simp [Repo.collect]
  | cons r rs => simp [Repo.collect, h]

theorem getR_noLoad (n : Nat) (q : RepoCfg) (st : State) (h : q.load = []) :
    Repo.getR (n + 2) q st =
      (some (if q.wrap then
          (Query.get st q.name q.wheres q.orWheres).map (fun r => Repo.Out.model q.entity.entity r)
        else (Query.get st q.name q.wheres q.orWheres).map Repo.Out.plain), st) :=
  collect_noLoad n q st _ h

theorem countR_noLoad (n : Nat) (q : RepoCfg) (st : State) (h : q.load = []) :
    Repo.countR (n + 3) q st =
      ((some (Query.get st q.name q.wheres q.orWheres).length, { q with wrap := false }), st) := by
  have hg := getR_noLoad n { q with wrap := false } st (by simpa using h)
  show (match Repo.getR (n + 2) { q with wrap := false } st with
    | (none, st1) => ((none, { q with wrap := false }), st1)
    | (some outs, st1) => ((some outs.length, { q with wrap := false }), st1)) = _
  rw [hg]
  simp

theorem applyConstraint_countCmp (n : Nat) (op : CmpOp) (k : Int) (q : RepoCfg)
    (st : State) (h : q.load = []) :
    Repo.applyConstraint (n + 4) (.countCmp op k) q st =
      (some ({ q with wrap := false },
        some (op.apply ((Query.get st q.name q.wheres q.orWheres).length : Int) k)), st) := by
  show (match Repo.countR (n + 3) q st with
    | ((none, _), st1) => (none, st1)
    | ((some cnt, q'), st1) => (some (q', some (op.apply (cnt : Int) k)), st1)) = _
  rw [countR_noLoad n q st h]

theorem addConstraint_single_count (n : Nat) (nm : String) (op : CmpOp) (k : Int)
    (q : RepoCfg) (st : State) (hseg : (Repo.jsSplit nm '.').length = 1)
    (h : q.load = []) :
    Repo.addConstraint (n + 5) q ⟨nm, some (.countCmp op k)⟩ st =
      (some (Repo.whereQ { q with wrap := false }
        (.recPred fun _ =>
          op.apply ((Query.get st q.name q.wheres q.orWheres).length : Int) k)), st) := by
  have hap := applyConstraint_countCmp n op k q st h
  simp only [Repo.addConstraint]
  rw [if_neg (by simp [hseg])]
  rw [show (n + 4 : Nat) = n + 4 from rfl, hap]

theorem addConstraint_single_none (n : Nat) (nm : String) (q : RepoCfg) (st : State)
    (hseg : (Repo.jsSplit nm '.').length = 1) :
    Repo.addConstraint (n + 1) q ⟨nm, none⟩ st = (some q, st) := by
  simp only [Repo.addConstraint]
  rw [if_neg (by simp [hseg])]

theorem qget_constWhere (st : State) (e : String) (w : Where) (b : Bool) :
    Query.get st e [w, .recPred fun _ => b] [] =
      (if b then Query.get st e [w] [] else []) := by
  cases b with
  | true =>
    simp only [Query.get]
    rw [show (matchQuery [w, Where.recPred fun _ => true] []) = (matchQuery [w] []) from
      funext fun r => by simp [matchQuery, matchWhere]]
    simp
  | false =>
    simp only [Query.get]
    rw [show (matchQuery [w, Where.recPred fun _ => false] []) = (fun _ => false) from
      funext fun r => by simp [matchQuery, matchWhere]]
    simp


/-- Scenario for the relationship-existence claim: `posts` with many
`comments` over the foreign key `post_id`, both entities using the
default primary key `id`. -/
def postsFields5 : Fields :=
  .fcons "id" (.attribute (.attr .null))
    (.fcons "comments" (.attribute (.hasMany (.cls "comments") "post_id")) .nil)

def commentsFields5 : Fields :=
  .fcons "id" (.attribute (.attr .null)) (.fcons "post_id" (.attribute (.attr .null)) .nil)

def postsModel5 : ModelDef := ⟨"posts", "id", postsFields5, fun _ => []⟩

def commentsModel5 : ModelDef := ⟨"comments", "id", commentsFields5, fun _ => []⟩

def registry5 : Registry := [("posts", postsModel5), ("comments", commentsModel5)]

/-- The posts repository, as built by `Repo.query(state, 'posts', false)`. -/
def cfg5 : RepoCfg := ⟨registry5, "", "posts", postsModel5, false, [], [], []⟩

/-- The nested comments repository built by the has-many loader. -/
def cfgC : RepoCfg := ⟨registry5, "", "comments", commentsModel5, false, [], [], []⟩

def st5 (P C : Table) : State := [("posts", P), ("comments", C)]

/-- The comments whose foreign key `post_id` equals the given value. -/
def commentsOf (C : Table) (v : Value) : List Rec :=
  (C.map Prod.snd).filter (fun c => recProp c "post_id" == v)

theorem qget_comments5 (P C : Table) (v : Value) :
    Query.get (st5 P C) "comments" [.fieldEq "post_id" v] [] = commentsOf C v := by
  have hg : getTable (st5 P C) "comments" = C := rfl
  simp only [Query.get, hg, commentsOf]
  apply List.filter_congr
  intro r _
  simp [matchQuery, matchWhere]

theorem qget_noFilter (st : State) (e : String) :
    Query.get st e [] [] = (getTable st e).map Prod.snd := by
  simp [Query.get, matchQuery]

theorem qget_fieldPred (st : State) (e f : String) (p : Value → Bool) :
    Query.get st e [.fieldPred f p] [] =
      ((getTable st e).map Prod.snd).filter (fun r => p (recProp r f)) := by
  simp only [Query.get]
  apply List.filter_congr
  intro r _
  simp [matchQuery, matchWhere]

/-- Nested comments repository after the count constraint has run: the
foreign-key filter plus the boolean whole-record clause left by the
evaluated count comparison. -/
def cfgC2 (C : Table) (v : Value) (op : CmpOp) (k : Int) : RepoCfg :=
  ⟨registry5, "", "comments", commentsModel5, false, [],
    [.fieldEq "post_id" v, .recPred fun _ => op.apply ((commentsOf C v).length : Int) k], []⟩

theorem addConstraint_comments_count (n : Nat) (P C : Table) (v : Value)
    (op : CmpOp) (k : Int) :
    Repo.addConstraint (n + 5) (Repo.whereQ cfgC (.fieldEq "post_id" v))
      ⟨"comments", some (.countCmp op k)⟩ (st5 P C) =
    (some (cfgC2 C v op k), st5 P C) := by
  have h := addConstraint_single_count n "comments" op k
    (Repo.whereQ cfgC (.fieldEq "post_id" v)) (st5 P C) (by decide) rfl
  rw [h]
  simp only [Repo.whereQ, cfgC, cfgC2, List.nil_append, List.singleton_append]
  rw [qget_comments5]


theorem map_obj_plain (L : List Rec) :
    (L.map Repo.Out.plain).map (fun o => Value.obj o.recOf) = L.map Value.obj := by
  induction L with
  | nil => rfl
  | cons x xs ih => simp [ih, Repo.Out.recOf]

theorem map_obj_comp_plain (L : List Rec) :
    L.map ((fun o => Value.obj o.recOf) ∘ Repo.Out.plain) = L.map Value.obj := by
  induction L with
  | nil => rfl
  | cons x xs ih => simp [ih, Repo.Out.recOf, Function.comp]

theorem loadHasMany_comments_count (n : Nat) (P C : Table) (r : Rec) (op : CmpOp) (k : Int) :
    Repo.loadHasManyRelation (n + 7) cfg5 (st5 P C) r (.cls "comments") "post_id"
      ⟨"comments", some (.countCmp op k)⟩ =
    (some (.arr (VList.ofList
      ((if op.apply ((commentsOf C (recProp r "id")).length : Int) k
        then commentsOf C (recProp r "id") else []).map Value.obj))), st5 P C) := by
  have hres : Repo.resolveRelation cfg5 (ModelRef.cls "comments") = some "comments" := rfl
  have hmk : Repo.mk cfg5.registry cfg5.globalName "comments" false = some cfgC := rfl
  simp only [Repo.loadHasManyRelation, hres, hmk]
  rw [show (n + 6 : Nat) = (n + 1) + 5 from rfl]
  simp only [addConstraint_comments_count (n + 1) P C (recProp r "id") op k]
  rw [show ((n + 1) + 5 : Nat) = (n + 4) + 2 from rfl]
  simp only [getR_noLoad (n + 4) (cfgC2 C (recProp r "id") op k) (st5 P C) rfl]
  simp only [cfgC2]
  rw [qget_constWhere (st5 P C) "comments" (.fieldEq "post_id" (recProp r "id"))
    (CmpOp.apply op ((commentsOf C (recProp r "id")).length : Int) k)]
  rw [qget_comments5 P C (recProp r "id")]
  cases hb : CmpOp.apply op ((commentsOf C (recProp r "id")).length : Int) k <;>
    simp [map_obj_plain, map_obj_comp_plain]

theorem loadHasMany_comments_none (n : Nat) (P C : Table) (r : Rec) :
    Repo.loadHasManyRelation (n + 7) cfg5 (st5 P C) r (.cls "comments") "post_id"
      ⟨"comments", none⟩ =
    (some (.arr (VList.ofList ((commentsOf C (recProp r "id")).map Value.obj))), st5 P C) := by
  have hres : Repo.resolveRelation cfg5 (ModelRef.cls "comments") = some "comments" := rfl
  have hmk : Repo.mk cfg5.registry cfg5.globalName "comments" false = some cfgC := rfl
  simp only [Repo.loadHasManyRelation, hres, hmk]
  rw [show (n + 6 : Nat) = (n + 5) + 1 from rfl]
  simp only [addConstraint_single_none (n + 5) "comments"
    (Repo.whereQ cfgC (.fieldEq "post_id" (recProp r "id"))) (st5 P C) (by decide)]
  rw [show ((n + 5) + 1 : Nat) = (n + 4) + 2 from rfl]
  simp only [getR_noLoad (n + 4) (Repo.whereQ cfgC (.fieldEq "post_id" (recProp r "id")))
    (st5 P C) rfl]
  simp only [Repo.whereQ, cfgC, List.nil_append]
  rw [qget_comments5 P C (recProp r "id")]
  simp [map_obj_plain, map_obj_comp_plain]


theorem recProp_set_self (r : Rec) (k : String) (v : Value) :
    recProp (r.set k v) k = v := by
  simp [recProp, VFields.lookup_set_self]

theorem vlist_isEmpty_ofList (l : List Value) :
    (VList.ofList l).isEmpty = l.isEmpty := by
  cases l <;> rfl

theorem list_isEmpty_map (f : α → β) (l : List α) :
    (l.map f).isEmpty = l.isEmpty := by
  cases l <;> rfl

theorem hasRelation_comments_num (n : Nat) (P C : Table) (r : Rec) (k : Int) :
    Repo.hasRelation (n + 9) cfg5 (st5 P C) r "comments" (.num k) =
      (some (!(if CmpOp.apply .eq ((commentsOf C (recProp r "id")).length : Int) k
        then commentsOf C (recProp r "id") else []).isEmpty), st5 P C) := by
  have hnm : (Repo.jsSplit "comments" '.').headD "" = "comments" := rfl
  have hfl : Fields.lookup "comments" cfg5.entity.fields =
      some (.attribute (.hasMany (.cls "comments") "post_id")) := rfl
  simp only [Repo.hasRelation, Repo.HasArg.toCons, Repo.loadRelationsTop,
    Repo.loadRelations, Repo.stFoldl, Repo.loadOne, hnm, hfl]
  rw [loadHasMany_comments_count n P C r .eq k]
  simp only [Repo.stFoldl, recProp_set_self, isEmptyValue, vlist_isEmpty_ofList,
    list_isEmpty_map]

theorem hasRelation_comments_noCons (n : Nat) (P C : Table) (r : Rec) :
    Repo.hasRelation (n + 9) cfg5 (st5 P C) r "comments" .noCons =
      (some (!(commentsOf C (recProp r "id")).isEmpty), st5 P C) := by
  have hnm : (Repo.jsSplit "comments" '.').headD "" = "comments" := rfl
  have hfl : Fields.lookup "comments" cfg5.entity.fields =
      some (.attribute (.hasMany (.cls "comments") "post_id")) := rfl
  simp only [Repo.hasRelation, Repo.HasArg.toCons, Repo.loadRelationsTop,
    Repo.loadRelations, Repo.stFoldl, Repo.loadOne, hnm, hfl]
  rw [loadHasMany_comments_none n P C r]
  simp only [Repo.stFoldl, recProp_set_self, isEmptyValue, vlist_isEmpty_ofList,
    list_isEmpty_map]


theorem addHasConstraint_comments (P C : Table) (arg : Repo.HasArg) (existence : Bool)
    (g : Rec → Bool)
    (hrel : ∀ r, Repo.hasRelation 20 cfg5 (st5 P C) r "comments" arg =
      (some (g r), st5 P C)) :
    Repo.addHasConstraint 20 cfg5 (st5 P C) "comments" arg existence =
      (some (Repo.whereQ cfg5 (.fieldPred "id" (fun key =>
        ((((P.map Prod.snd).filter (fun r => g r == existence)).map
          (fun r => recProp r "id")).contains key)))), st5 P C) := by
  have hpk : Repo.primaryKey cfg5 = "id" := rfl
  have hitems : Query.get (st5 P C) cfg5.name [] [] = P.map Prod.snd := by
    rw [qget_noFilter]
    rfl
  have hfold : ∀ (items : List Rec) (acc : List Value),
      Repo.stFoldl (fun ids itemRec s =>
        match Repo.hasRelation 20 cfg5 s itemRec "comments" arg with
        | (none, s1) => (none, s1)
        | (some b, s1) =>
          (some (if b = existence then ids ++ [recProp itemRec "id"] else ids), s1))
        items acc (st5 P C) =
      (some (acc ++ (items.filter (fun r => g r == existence)).map (fun r => recProp r "id")),
        st5 P C) := by
    intro items
    induction items with
    | nil => intro acc; simp [Repo.stFoldl]
    | cons x xs ih =>
      intro acc
      simp only [Repo.stFoldl, hrel x]
      by_cases hg : g x = existence
      · simp [hg, ih, List.filter_cons]
      · simp [hg, ih, List.filter_cons]
  simp only [Repo.addHasConstraint, hpk, hitems, hfold (P.map Prod.snd) []]
  simp

theorem hasTwo_bool (C : Table) (v : Value) :
    (!(if CmpOp.apply .eq ((commentsOf C v).length : Int) 2 then commentsOf C v
      else []).isEmpty) = decide ((commentsOf C v).length = 2) := by
  by_cases h : (commentsOf C v).length = 2
  · have hne : commentsOf C v ≠ [] := by
      intro e
      rw [e] at h
      simp at h
    simp [CmpOp.apply, h, List.isEmpty_iff, hne]
  · have h2 : ¬(((commentsOf C v).length : Int) = 2) := by
      intro e
      apply h
      omega
    simp [CmpOp.apply, h, h2]

theorem hasNone_bool (l : List α) :
    ((!l.isEmpty) == false) = decide (l.length = 0) := by
  cases l <;> simp

theorem contains_key_filter (recs : List Rec) (pb : Value → Bool) (r : Rec)
    (hr : r ∈ recs) :
    (((recs.filter (fun x => pb (recProp x "id"))).map (fun x => recProp x "id")).contains
      (recProp r "id")) = pb (recProp r "id") := by
  by_cases h : pb (recProp r "id") = true
  · rw [h]
    have hm : recProp r "id" ∈
        (recs.filter (fun x => pb (recProp x "id"))).map (fun x => recProp x "id") :=
      List.mem_map.mpr ⟨r, List.mem_filter.mpr ⟨hr, h⟩, rfl⟩
    simpa [List.contains, List.elem_iff] using hm
  · have hb : pb (recProp r "id") = false := by simpa using h
    rw [hb]
    have hm : recProp r "id" ∉
        (recs.filter (fun x => pb (recProp x "id"))).map (fun x => recProp x "id") := by
      intro hmem
      obtain ⟨x, hxf, hxe⟩ := List.mem_map.mp hmem
      obtain ⟨-, hxp⟩ := List.mem_filter.mp hxf
      rw [hxe, hb] at hxp
      exact Bool.false_ne_true hxp
    simpa [List.contains, List.elem_iff] using hm


/-- Claim C5: for the Post/Comment schema, `has('comments', 2)`
followed by `get()` returns exactly the posts with exactly two
comments, and `hasNot('comments')` followed by `get()` returns exactly
the posts with zero comments — for every posts table and comments
table. -/
theorem beq_true_eq (b : Bool) : (b == true) = b := by cases b <;> rfl

theorem c5_has_hasNot_comments (P C : Table) :
    (Repo.runHasGet 20 cfg5 (st5 P C) "comments" (.num 2)).1 =
      some (((P.map Prod.snd).filter
        (fun r => decide ((commentsOf C (recProp r "id")).length = 2))).map Repo.Out.plain) ∧
    (Repo.runHasNotGet 20 cfg5 (st5 P C) "comments" .noCons).1 =
      some (((P.map Prod.snd).filter
        (fun r => decide ((commentsOf C (recProp r "id")).length = 0))).map Repo.Out.plain) := by
  have hgt : getTable (st5 P C) "posts" = P := rfl
  constructor
  · have hrel2 : ∀ r, Repo.hasRelation 20 cfg5 (st5 P C) r "comments" (.num 2) =
        (some (decide ((commentsOf C (recProp r "id")).length = 2)), st5 P C) := by
      intro r
      have h := hasRelation_comments_num 11 P C r 2
      rw [hasTwo_bool C (recProp r "id")] at h
      exact h
    have hadd := addHasConstraint_comments P C (.num 2) true
      (fun r => decide ((commentsOf C (recProp r "id")).length = 2)) hrel2
    simp only [Repo.runHasGet, Repo.hasQ, hadd, beq_true_eq]
    rw [show (20 : Nat) = 18 + 2 from rfl]
    rw [getR_noLoad 18 (Repo.whereQ cfg5 (.fieldPred "id" (fun key =>
      ((((P.map Prod.snd).filter (fun r =>
        decide ((commentsOf C (recProp r "id")).length = 2))).map
        (fun r => recProp r "id")).contains key)))) (st5 P C) rfl]
    simp only [Repo.whereQ, cfg5, List.nil_append, qget_fieldPred, hgt]
    have hcong : ∀ r ∈ P.map Prod.snd,
        ((((P.map Prod.snd).filter (fun r =>
          decide ((commentsOf C (recProp r "id")).length = 2))).map
          (fun r => recProp r "id")).contains (recProp r "id")) =
        decide ((commentsOf C (recProp r "id")).length = 2) := fun r hr =>
      contains_key_filter (P.map Prod.snd)
        (fun v => decide ((commentsOf C v).length = 2)) r hr
    rw [List.filter_congr hcong]
    simp
  · have hrel0 : ∀ r, Repo.hasRelation 20 cfg5 (st5 P C) r "comments" .noCons =
        (some (!(commentsOf C (recProp r "id")).isEmpty), st5 P C) := by
      intro r
      exact hasRelation_comments_noCons 11 P C r
    have hadd := addHasConstraint_comments P C .noCons false
      (fun r => !(commentsOf C (recProp r "id")).isEmpty) hrel0
    simp only [Repo.runHasNotGet, Repo.hasNotQ, hadd, hasNone_bool]
    rw [show (20 : Nat) = 18 + 2 from rfl]
    rw [getR_noLoad 18 (Repo.whereQ cfg5 (.fieldPred "id" (fun key =>
      ((((P.map Prod.snd).filter (fun r =>
        decide ((commentsOf C (recProp r "id")).length = 0))).map
        (fun r => recProp r "id")).contains key)))) (st5 P C) rfl]
    simp only [Repo.whereQ, cfg5, List.nil_append, qget_fieldPred, hgt]
    have hcong : ∀ r ∈ P.map Prod.snd,
        ((((P.map Prod.snd).filter (fun r =>
          decide ((commentsOf C (recProp r "id")).length = 0))).map
          (fun r => recProp r "id")).contains (recProp r "id")) =
        decide ((commentsOf C (recProp r "id")).length = 0) := fun r hr =>
      contains_key_filter (P.map Prod.snd)
        (fun v => decide ((commentsOf C v).length = 0)) r hr
    rw [List.filter_congr hcong]
    simp

end VO
